import Mathlib

/-!
# statsdev: datagram decoding and counter aggregation

A shallow embedding of `service.go` (package `service`): the methods
`State.handle` and `State.process`, together with the pieces of the Go standard
library they call (`strings.Split`, `strings.Join`, `strconv.ParseInt`,
`fmt.Sprintf` with `%s` and `%d`).

Conventions.
* A Go `string` is modelled as a list of characters (`Str`).  Every separator
  and digit the code looks at (newline, `|`, `:`, sign, `0`..`9`) is a one-byte
  ASCII character, so splitting and parsing act on characters exactly as they
  act on bytes.
* Go's `int` is taken at its 64-bit width; `+=` on it wraps around in two's
  complement, which `wrapInt` makes explicit.
* The map `Metrics` is a finite map, modelled as a function into `Option`.
* `fmt.Printf` is modelled by collecting the printed text in the result.
* `strconv.Quote`, which `strconv.NumError.Error` uses to render the offending
  text, is a parameter (`Quote`) of everything that can build an error message.
-/

namespace Statsdev

/-- A Go string. -/
abbrev Str := List Char

/-! ## Standard library: `strings` -/

/-- Go standard library, `strings.Split(s, sep)` for a one-character separator
(`genSplit` with `n = Count(s, sep) + 1`): the pieces of `s` between the
occurrences of `sep`, in order.  The slice it returns has one element more than
`s` has separators, so it is never empty: a string without separator (the
empty string too) gives that string as the only piece. -/
def Split : Str → Char → List Str
  | [], _ => [[]]
  | c :: cs, sep =>
    if c = sep then [] :: Split cs sep
    else
      match Split cs sep with
      | [] => [[c]]
      | p :: ps => (c :: p) :: ps

/-- Go standard library, `strings.Join(elems, sep)`: the elements, with `sep`
between consecutive ones. -/
def Join : List Str → Str → Str
  | [], _ => []
  | [a], _ => a
  | a :: b :: rest, sep => a ++ sep ++ Join (b :: rest) sep

/-! ## Standard library: `strconv` -/

/-- The two sentinel errors `strconv.ErrSyntax` and `strconv.ErrRange`. -/
inductive ConvErr where
  | ErrSyntax
  | ErrRange
  deriving DecidableEq, Repr

/-- The text of `ErrSyntax.Error()` and of `ErrRange.Error()`. -/
def ConvErr.Error : ConvErr → Str
  | .ErrSyntax => "invalid syntax".data
  | .ErrRange => "value out of range".data

/-- A `*strconv.NumError`: the failing function, the input and the reason. -/
structure NumError where
  Func : Str
  Num : Str
  Err : ConvErr
  deriving DecidableEq, Repr

/-- The method `(*NumError).Error`:
`"strconv." + e.Func + ": parsing " + Quote(e.Num) + ": " + e.Err.Error()`. -/
def NumError.Error (Quote : Str → Str) (e : NumError) : Str :=
  "strconv.".data ++ e.Func ++ ": parsing ".data ++ Quote e.Num ++ ": ".data ++ e.Err.Error

instance instDecidableEqExcept {ε α : Type} [DecidableEq ε] [DecidableEq α] :
    DecidableEq (Except ε α)
  | .ok a, .ok b => if h : a = b then isTrue (by rw [h]) else isFalse (by simpa using h)
  | .error a, .error b => if h : a = b then isTrue (by rw [h]) else isFalse (by simpa using h)
  | .ok _, .error _ => isFalse (by simp)
  | .error _, .ok _ => isFalse (by simp)

/-- The constant `maxUint64`. -/
def maxUint64 : Nat := 2 ^ 64 - 1

/-- The byte-to-byte function `lower(c) = c | ('x' - 'X')`. -/
def lower (c : Nat) : Nat := c ||| 0x20

/-- Go standard library, the digit loop of `strconv.ParseUint(s, 10, 64)`:
`n` is the value accumulated so far (a `uint64`, so the products and sums are
taken modulo 2^64), the list is the rest of the input.  A character that is not
a digit of the base is a syntax error; `n >= cutoff` with
`cutoff = maxUint64/10 + 1`, or a sum that wraps or exceeds
`maxVal = 1<<64 - 1`, is a range error. -/
def parseUintLoop (n : Nat) : Str → Except ConvErr Nat
  | [] => .ok n
  | c :: cs =>
    let d : Option Nat :=
      if '0'.toNat ≤ c.toNat ∧ c.toNat ≤ '9'.toNat then some (c.toNat - '0'.toNat)
      else if 'a'.toNat ≤ lower c.toNat ∧ lower c.toNat ≤ 'z'.toNat then
        some (lower c.toNat - 'a'.toNat + 10)
      else none
    match d with
    | none => .error .ErrSyntax
    | some d =>
      if d ≥ 10 then .error .ErrSyntax
      else if n ≥ maxUint64 / 10 + 1 then .error .ErrRange
      else
        let n10 := (n * 10) % 2 ^ 64
        let n1 := (n10 + d) % 2 ^ 64
        if n1 < n10 ∨ n1 > maxUint64 then .error .ErrRange
        else parseUintLoop n1 cs

/-- Go standard library, `strconv.ParseUint(s, 10, 64)`, with the error reduced
to its sentinel (`ParseInt` overwrites `Func` and `Num` anyway). -/
def ParseUint (s : Str) : Except ConvErr Nat :=
  if s = [] then .error .ErrSyntax else parseUintLoop 0 s

/-- Go standard library, `strconv.ParseInt(s, 10, 64)`: the empty string is a
syntax error; one leading `+` or `-` is picked off; the rest goes to
`ParseUint`.  On a range error `ParseUint` returns `maxVal`, which is beyond
either cutoff, so `ParseInt` reports a range error as well. -/
def ParseInt (s : Str) : Except NumError Int :=
  let fnParseInt : Str := "ParseInt".data
  match s with
  | [] => .error ⟨fnParseInt, s, .ErrSyntax⟩
  | c :: cs =>
    let neg := decide (c = '-')
    let s1 := if c = '+' then cs else if c = '-' then cs else s
    match ParseUint s1 with
    | .error .ErrSyntax => .error ⟨fnParseInt, s, .ErrSyntax⟩
    | .error .ErrRange => .error ⟨fnParseInt, s, .ErrRange⟩
    | .ok un =>
      let cutoff : Nat := 2 ^ 63
      if !neg ∧ un ≥ cutoff then .error ⟨fnParseInt, s, .ErrRange⟩
      else if neg ∧ un > cutoff then .error ⟨fnParseInt, s, .ErrRange⟩
      else .ok (if neg then -(un : Int) else (un : Int))

/-- The verb `%d` of `fmt` applied to an `int`: its decimal rendering. -/
def formatInt (i : Int) : Str :=
  if i < 0 then '-' :: Nat.toDigits 10 i.natAbs else Nat.toDigits 10 i.natAbs

/-! ## Machine integers -/

/-- Reduction of an integer to the range of a 64-bit `int` (two's complement
wrap-around), the result of Go's `+` on `int`. -/
def wrapInt (x : Int) : Int := (x + 2 ^ 63) % 2 ^ 64 - 2 ^ 63

/-! ## The service -/

/-- The struct `State`. -/
structure State where
  Addr : Str
  Metrics : Str → Option Int

/-- The map assignment `m[k] = v`. -/
def mapSet (m : Str → Option Int) (k : Str) (v : Int) : Str → Option Int :=
  fun k1 => if k1 = k then some v else m k1

/-- The map read `m[k]`: the zero value when the key is absent. -/
def mapGet (m : Str → Option Int) (k : Str) : Int := (m k).getD 0

/-- What one call leaves behind: the state (the map is shared, so the callee's
writes are the caller's), the text printed on standard output, and the returned
`error` (`none` for `nil`, otherwise its message). -/
structure Outcome where
  state : State
  out : Str
  err : Option Str

/-- The method `State.process`.  The two length checks and the indexing
`parts[0]`, `nameValue[0]`, `nameValue[1]` are the patterns of the two matches;
`int(value)` is the identity at the 64-bit width of `int`. -/
def process (Quote : Str → Str) (s : State) (metric : Str) : Outcome :=
  match Split metric '|' with
  | [] => ⟨s, [], some ("invalid metric: \"".data ++ metric ++ "\"".data)⟩
  | part0 :: _ =>
    match Split part0 ':' with
    | [] => ⟨s, [], some ("invalid name/value pair: \"".data ++ metric ++ "\"".data)⟩
    | [_] => ⟨s, [], some ("invalid name/value pair: \"".data ++ metric ++ "\"".data)⟩
    | name :: valueText :: _ =>
      match ParseInt valueText with
      | .error e =>
        ⟨s, [], some ("can not convert value to int: \"".data ++ metric ++ "\", ".data
                      ++ e.Error Quote)⟩
      | .ok value =>
        let metrics1 := if (s.Metrics name).isNone then mapSet s.Metrics name 0 else s.Metrics
        let metrics2 := mapSet metrics1 name (wrapInt (mapGet metrics1 name + value))
        ⟨{ s with Metrics := metrics2 },
         metric ++ "\t (total: ".data ++ formatInt (mapGet metrics2 name) ++ ")\n".data,
         none⟩

/-- The `for _, m := range metrics` loop of `State.handle`: the state, the
`errors` slice and the text printed so far are threaded through. -/
def handleLoop (Quote : Str → Str) :
    List Str → State → List Str → Str → State × List Str × Str
  | [], s, errors, out => (s, errors, out)
  | m :: ms, s, errors, out =>
    let r := process Quote s m
    match r.err with
    | some e =>
      handleLoop Quote ms r.state
        (errors ++ ["error processing metric: \"".data ++ m ++ "\", ".data ++ e]) (out ++ r.out)
    | none => handleLoop Quote ms r.state errors (out ++ r.out)

/-- The method `State.handle`. -/
def handle (Quote : Str → Str) (s : State) (data : Str) : Outcome :=
  let metrics := Split data '\n'
  match handleLoop Quote metrics s [] [] with
  | (s1, errors, out) =>
    if errors.length ≠ 0 then ⟨s1, out, some (Join errors "\n".data)⟩
    else ⟨s1, out, none⟩

/-- The map `make(map[string]int, 10)` of `New`: no entries. -/
def emptyMetrics : Str → Option Int := fun _ => none

/-- The function `New`. -/
def New (addr : Str) : State := ⟨addr, emptyMetrics⟩

/-- A stand-in for `strconv.Quote` on text made of printable ASCII characters
other than the double quote and the backslash: the text between double quotes. -/
def quoteAscii (s : Str) : Str := '"' :: s ++ ['"']

/-! ## The grammar as the specification words it

The definitions of this section are not taken from the code: they say, in the
words of the specification, what a line is made of (the text before the first
`|`, the name before the first `:`, the value text up to the second `:`, a
base-10 integer literal and its value).  The theorems compare them with what
`process` and `handle` compute.  The remaining definitions name what the
statements speak about: the lines applied in turn, the per-line message, the
sum of the accepted values of a name, the class of an error message.
-/

/-- The text of `s` before its first `c` (all of `s` when there is none). -/
def beforeFirst (c : Char) (s : Str) : Str := s.takeWhile (fun x => x != c)

/-- The text of `s` after its first `c` (empty when there is none). -/
def afterFirst (c : Char) (s : Str) : Str := (s.dropWhile (fun x => x != c)).drop 1

/-- The name/value part of a line: its text before the first `|`. -/
def pairText (m : Str) : Str := beforeFirst '|' m

/-- The name of a line: the text before the first `:`. -/
def nameText (m : Str) : Str := beforeFirst ':' (pairText m)

/-- The value text of a line: what stands between the first `:` and the second
`:` of the name/value part, or its end. -/
def valueText (m : Str) : Str := beforeFirst ':' (afterFirst ':' (pairText m))

/-- One or more decimal digits. -/
def isDigits (ds : Str) : Bool := !ds.isEmpty && ds.all Char.isDigit

/-- The number a string of decimal digits denotes. -/
def digitsValue (ds : Str) : Nat := ds.foldl (fun n c => 10 * n + (c.toNat - '0'.toNat)) 0

/-- The value of a base-10 integer literal: an optional single leading `+` or
`-`, then one or more decimal digits; `none` for any other text. -/
def literalValue (t : Str) : Option Int :=
  match t with
  | [] => none
  | c :: cs =>
    if c = '+' then (if isDigits cs then some (digitsValue cs : Int) else none)
    else if c = '-' then (if isDigits cs then some (-(digitsValue cs : Int)) else none)
    else if isDigits (c :: cs) then some (digitsValue (c :: cs) : Int) else none

/-- The range of a signed 64-bit integer. -/
def inInt64 (v : Int) : Prop := -2 ^ 63 ≤ v ∧ v ≤ 2 ^ 63 - 1

instance (v : Int) : Decidable (inInt64 v) := by unfold inInt64; infer_instance

/-- A base-10 integer literal whose value lies in the signed 64-bit range. -/
def isInt64Literal (t : Str) : Bool :=
  match literalValue t with
  | some v => decide (inInt64 v)
  | none => false

/-- What the grammar reads off a line: the name and the value, when the
name/value part has a `:` and the value text is an integer literal in the
signed 64-bit range. -/
def parseLine (m : Str) : Option (Str × Int) :=
  if ':' ∈ pairText m then
    match literalValue (valueText m) with
    | some v => if inInt64 v then some (nameText m, v) else none
    | none => none
  else none

/-- The value a line carries: the value of its value text (0 when there is none). -/
def lineValue (m : Str) : Int := (literalValue (valueText m)).getD 0

/-- Applying `process` to the lines of a list, one after the other. -/
def applyLines (Quote : Str → Str) (s : State) (ls : List Str) : State :=
  ls.foldl (fun st m => (process Quote st m).state) s

/-- The message `handle` records for a line: none when `process` accepts it. -/
def lineError (Quote : Str → Str) (s : State) (m : Str) : Option Str :=
  (process Quote s m).err.map
    (fun e => "error processing metric: \"".data ++ m ++ "\", ".data ++ e)

/-- The sum of the values of the lines that `process` accepts under the name `n`. -/
def acceptedSum (Quote : Str → Str) (s : State) (n : Str) (lines : List Str) : Int :=
  ((lines.filter
    (fun m => (process Quote s m).err.isNone && decide (nameText m = n))).map lineValue).sum

/-- The three kinds of per-line failure the specification names. -/
inductive ErrClass where
  | Empty
  | MissingValue
  | InvalidValue
  | Other
  deriving DecidableEq, Repr

/-- The kind of a failure, read off the fixed opening words of its message. -/
def errClass (msg : Str) : ErrClass :=
  if "invalid metric: \"".data.isPrefixOf msg then .Empty
  else if "invalid name/value pair: \"".data.isPrefixOf msg then .MissingValue
  else if "can not convert value to int: \"".data.isPrefixOf msg then .InvalidValue
  else .Other

/-! ## Lemmas on `Split` and `Join` -/

theorem Split_ne_nil (s : Str) (sep : Char) : Split s sep ≠ [] := by
  cases s with
  | nil => simp [Split]
  | cons c cs =>
    unfold Split
    split
    · simp
    · split <;> simp

theorem Split_of_not_mem {s : Str} {sep : Char} (h : sep ∉ s) : Split s sep = [s] := by
  induction s with
  | nil => rfl
  | cons c cs ih =>
    have hc : ¬ c = sep := fun e => h (by simp [e])
    have hcs : sep ∉ cs := fun e => h (by simp [e])
    rw [Split, if_neg hc, ih hcs]

theorem Split_append_sep (a b : Str) (sep : Char) :
    Split (a ++ sep :: b) sep = Split a sep ++ Split b sep := by
  induction a with
  | nil => simp [Split]
  | cons c cs ih =>
    by_cases hc : c = sep
    · simp [Split, hc, ih]
    · have hne := Split_ne_nil cs sep
      cases hsp : Split cs sep with
      | nil => exact absurd hsp hne
      | cons p ps => simp [Split, hc, ih, hsp]

theorem Split_eq_beforeFirst (s : Str) (sep : Char) :
    Split s sep = beforeFirst sep s ::
      (if sep ∈ s then Split (afterFirst sep s) sep else []) := by
  induction s with
  | nil => simp [Split, beforeFirst]
  | cons c cs ih =>
    by_cases hc : c = sep
    · subst hc
      simp [Split, beforeFirst, afterFirst]
    · have hc2 : ¬ sep = c := fun e => hc e.symm
      rw [Split, if_neg hc, ih]
      simp [beforeFirst, afterFirst, hc, hc2, List.takeWhile_cons, List.dropWhile_cons]

theorem Split_Join (lines : List Str) (sep : Char) (hne : lines ≠ [])
    (h : ∀ l ∈ lines, sep ∉ l) : Split (Join lines [sep]) sep = lines := by
  induction lines with
  | nil => exact absurd rfl hne
  | cons a rest ih =>
    cases rest with
    | nil => simpa [Join] using Split_of_not_mem (h a (by simp))
    | cons b rest2 =>
      have h1 : Join (a :: b :: rest2) [sep] = a ++ sep :: Join (b :: rest2) [sep] := by
        simp [Join]
      rw [h1, Split_append_sep, Split_of_not_mem (h a (by simp)),
        ih (by simp) (fun l hl => h l (by simp [hl]))]
      rfl

/-! ## `process` in terms of the grammar -/

theorem process_eq (Quote : Str → Str) (s : State) (m : Str) :
    process Quote s m =
      if ':' ∈ pairText m then
        match ParseInt (valueText m) with
        | .error e =>
          ⟨s, [], some ("can not convert value to int: \"".data ++ m ++ "\", ".data
                        ++ e.Error Quote)⟩
        | .ok value =>
          let metrics1 :=
            if (s.Metrics (nameText m)).isNone then mapSet s.Metrics (nameText m) 0
            else s.Metrics
          let metrics2 :=
            mapSet metrics1 (nameText m) (wrapInt (mapGet metrics1 (nameText m) + value))
          ⟨{ s with Metrics := metrics2 },
           m ++ "\t (total: ".data ++ formatInt (mapGet metrics2 (nameText m)) ++ ")\n".data,
           none⟩
      else ⟨s, [], some ("invalid name/value pair: \"".data ++ m ++ "\"".data)⟩ := by
  unfold process
  rw [Split_eq_beforeFirst m '|']
  simp only []
  rw [Split_eq_beforeFirst (beforeFirst '|' m) ':']
  by_cases h : ':' ∈ pairText m
  · have h2 : ':' ∈ beforeFirst '|' m := h
    rw [if_pos h, if_pos h2, Split_eq_beforeFirst (afterFirst ':' (beforeFirst '|' m)) ':']
    rfl
  · have h2 : ':' ∉ beforeFirst '|' m := h
    rw [if_neg h, if_neg h2]

/-! ## `ParseInt` against the literal grammar -/

theorem isDigit_iff (c : Char) : c.isDigit = true ↔ 48 ≤ c.toNat ∧ c.toNat ≤ 57 := by
  simp [Char.isDigit, Char.toNat, UInt32.le_def, BitVec.le_def, UInt32.toNat]

theorem parseUintLoop_not_digit (n : Nat) (c : Char) (cs : Str)
    (h : ¬ (48 ≤ c.toNat ∧ c.toNat ≤ 57)) :
    parseUintLoop n (c :: cs) = .error .ErrSyntax := by
  have h0 : '0'.toNat = 48 := rfl
  have h9 : '9'.toNat = 57 := rfl
  have ha : 'a'.toNat = 97 := rfl
  have hz : 'z'.toNat = 122 := rfl
  unfold parseUintLoop
  simp only [h0, h9, ha, hz, if_neg h]
  split
  · rfl
  · rename_i d hd
    split at hd
    · have : d = lower c.toNat - 97 + 10 := by simpa using hd.symm
      rw [if_pos (by omega)]
    · simp at hd

theorem parseUintLoop_digit (n : Nat) (c : Char) (cs : Str)
    (h : 48 ≤ c.toNat ∧ c.toNat ≤ 57) (hn : n ≤ maxUint64) :
    parseUintLoop n (c :: cs) =
      if 10 * n + (c.toNat - 48) ≤ maxUint64 then parseUintLoop (10 * n + (c.toNat - 48)) cs
      else .error .ErrRange := by
  have h0 : '0'.toNat = 48 := rfl
  have h9 : '9'.toNat = 57 := rfl
  rw [parseUintLoop]
  simp only [h0, h9, if_pos h]
  have hd : ¬ (c.toNat - 48 ≥ 10) := by omega
  simp only [if_neg hd]
  unfold maxUint64 at *
  norm_num at *
  by_cases hcut : 1844674407370955162 ≤ n
  · rw [if_pos hcut, if_neg (by omega)]
  · rw [if_neg hcut]
    have e10 : n * 10 % 18446744073709551616 = n * 10 := Nat.mod_eq_of_lt (by omega)
    rw [e10]
    by_cases hov : 10 * n + (c.toNat - 48) ≤ 18446744073709551615
    · have e1 : (n * 10 + (c.toNat - 48)) % 18446744073709551616 = 10 * n + (c.toNat - 48) := by
        rw [Nat.mod_eq_of_lt (by omega)]; ring
      rw [e1, if_pos hov, if_neg (by omega)]
    · rw [if_neg hov, if_pos]
      left
      omega

theorem foldl_digits_ge (ds : Str) (n : Nat) :
    n ≤ ds.foldl (fun n c => 10 * n + (c.toNat - '0'.toNat)) n := by
  induction ds generalizing n with
  | nil => simp
  | cons c cs ih =>
    have := ih (10 * n + (c.toNat - '0'.toNat))
    simp only [List.foldl_cons]
    omega

theorem parseUintLoop_ok_iff (cs : Str) (n r : Nat) (hn : n ≤ maxUint64) :
    parseUintLoop n cs = .ok r ↔
      (cs.all Char.isDigit = true ∧
        cs.foldl (fun n c => 10 * n + (c.toNat - '0'.toNat)) n = r ∧ r ≤ maxUint64) := by
  induction cs generalizing n with
  | nil =>
    simp only [parseUintLoop, List.all_nil, List.foldl_nil, true_and, Except.ok.injEq]
    constructor
    · intro h; subst h; exact ⟨rfl, hn⟩
    · intro h; exact h.1
  | cons c cs ih =>
    have h0 : '0'.toNat = 48 := rfl
    by_cases hd : 48 ≤ c.toNat ∧ c.toNat ≤ 57
    · have hdig : c.isDigit = true := (isDigit_iff c).2 hd
      rw [parseUintLoop_digit n c cs hd hn]
      simp only [List.all_cons, hdig, Bool.true_and, List.foldl_cons, h0]
      by_cases hov : 10 * n + (c.toNat - 48) ≤ maxUint64
      · rw [if_pos hov]
        exact ih _ hov
      · rw [if_neg hov]
        have hge := foldl_digits_ge cs (10 * n + (c.toNat - 48))
        simp only [h0] at hge
        constructor
        · intro h; cases h
        · rintro ⟨_, h2, h3⟩
          omega
    · have hdig : ¬ c.isDigit = true := fun h => hd ((isDigit_iff c).1 h)
      rw [parseUintLoop_not_digit n c cs hd]
      simp [hdig]

theorem ParseUint_ok_iff (s : Str) (r : Nat) :
    ParseUint s = .ok r ↔ (isDigits s = true ∧ digitsValue s = r ∧ r ≤ maxUint64) := by
  unfold ParseUint isDigits digitsValue
  by_cases hs : s = []
  · subst hs; simp
  · rw [if_neg hs, parseUintLoop_ok_iff s 0 r (Nat.zero_le _)]
    simp [hs]

theorem ParseUint_error (s : Str) (e : ConvErr) (h : ParseUint s = .error e) :
    ¬ (isDigits s = true ∧ digitsValue s ≤ maxUint64) := by
  rintro ⟨h1, h2⟩
  have := (ParseUint_ok_iff s (digitsValue s)).2 ⟨h1, rfl, h2⟩
  rw [this] at h
  cases h

theorem isDigits_head_not_sign (c : Char) (cs : Str) (h : isDigits (c :: cs) = true) :
    c ≠ '+' ∧ c ≠ '-' := by
  have hc : c.isDigit = true := by
    simp [isDigits] at h
    exact h.1
  have := (isDigit_iff c).1 hc
  constructor
  · rintro rfl; revert this; decide
  · rintro rfl; revert this; decide

theorem ofNat_inInt64_iff (un : Nat) : inInt64 (un : Int) ↔ ¬ (9223372036854775808 ≤ un) := by
  unfold inInt64; norm_num; omega

theorem neg_ofNat_inInt64_iff (un : Nat) :
    inInt64 (-(un : Int)) ↔ ¬ (9223372036854775808 < un) := by
  unfold inInt64; norm_num; omega

/-- The function `ParseInt` returns `v` exactly when the text is a base-10
integer literal of value `v` in the signed 64-bit range. -/
theorem ParseInt_ok_iff (t : Str) (v : Int) :
    ParseInt t = .ok v ↔ (literalValue t = some v ∧ inInt64 v) := by
  have hmax : maxUint64 = 18446744073709551615 := by unfold maxUint64; norm_num
  cases t with
  | nil => simp [ParseInt, literalValue]
  | cons c cs =>
    simp only [ParseInt, literalValue]
    by_cases hp : c = '+'
    · subst hp
      simp only [if_true, show ¬ ('+' = '-') by decide, decide_False]
      cases hpu : ParseUint cs with
      | error e =>
        have hne := ParseUint_error cs e hpu
        cases e <;> simp only [reduceCtorEq, false_iff] <;> rintro ⟨h1, h2⟩ <;>
          (split at h1
           · rename_i hdig
             apply hne
             refine ⟨hdig, ?_⟩
             simp only [Option.some.injEq] at h1
             subst h1
             have := (ofNat_inInt64_iff _).1 h2
             omega
           · cases h1)
      | ok un =>
        obtain ⟨hd, hv, _⟩ := (ParseUint_ok_iff cs un).1 hpu
        simp only [hd, if_true, hv, Option.some.injEq]
        norm_num
        by_cases hr : 9223372036854775808 ≤ un
        · have : ¬ inInt64 (un : Int) := fun h => (ofNat_inInt64_iff un).1 h hr
          rw [if_pos hr]
          simp only [reduceCtorEq, false_iff]
          rintro ⟨rfl, h⟩; exact this h
        · have : inInt64 (un : Int) := (ofNat_inInt64_iff un).2 hr
          rw [if_neg hr]
          constructor
          · intro h; cases h; exact ⟨rfl, this⟩
          · rintro ⟨rfl, _⟩; rfl
    · by_cases hm : c = '-'
      · subst hm
        simp only [if_true, show ¬ ('-' = '+') by decide, if_false, decide_True]
        cases hpu : ParseUint cs with
        | error e =>
          have hne := ParseUint_error cs e hpu
          cases e <;> simp only [reduceCtorEq, false_iff] <;> rintro ⟨h1, h2⟩ <;>
            (split at h1
             · rename_i hdig
               apply hne
               refine ⟨hdig, ?_⟩
               simp only [Option.some.injEq] at h1
               subst h1
               have := (neg_ofNat_inInt64_iff _).1 h2
               omega
             · cases h1)
        | ok un =>
          obtain ⟨hd, hv, _⟩ := (ParseUint_ok_iff cs un).1 hpu
          simp only [hd, if_true, hv, Option.some.injEq]
          norm_num
          by_cases hr : 9223372036854775808 < un
          · have : ¬ inInt64 (-(un : Int)) := fun h => (neg_ofNat_inInt64_iff un).1 h hr
            rw [if_pos hr]
            simp only [reduceCtorEq, false_iff]
            rintro ⟨rfl, h⟩; exact this h
          · have : inInt64 (-(un : Int)) := (neg_ofNat_inInt64_iff un).2 hr
            rw [if_neg hr]
            constructor
            · intro h; cases h; exact ⟨rfl, this⟩
            · rintro ⟨rfl, _⟩; rfl
      · simp only [if_neg hp, if_neg hm, decide_eq_false hm]
        cases hpu : ParseUint (c :: cs) with
        | error e =>
          have hne := ParseUint_error (c :: cs) e hpu
          cases e <;> simp only [reduceCtorEq, false_iff] <;> rintro ⟨h1, h2⟩ <;>
            (split at h1
             · rename_i hdig
               apply hne
               refine ⟨hdig, ?_⟩
               simp only [Option.some.injEq] at h1
               subst h1
               have := (ofNat_inInt64_iff _).1 h2
               omega
             · cases h1)
        | ok un =>
          obtain ⟨hd, hv, _⟩ := (ParseUint_ok_iff (c :: cs) un).1 hpu
          simp only [hd, if_true, hv, Option.some.injEq]
          norm_num
          by_cases hr : 9223372036854775808 ≤ un
          · have : ¬ inInt64 (un : Int) := fun h => (ofNat_inInt64_iff un).1 h hr
            rw [if_pos hr]
            simp only [reduceCtorEq, false_iff]
            rintro ⟨rfl, h⟩; exact this h
          · have : inInt64 (un : Int) := (ofNat_inInt64_iff un).2 hr
            rw [if_neg hr]
            constructor
            · intro h; cases h; exact ⟨rfl, this⟩
            · rintro ⟨rfl, _⟩; rfl

/-! ## Machine arithmetic and the map -/

theorem wrapInt_of_inInt64 {x : Int} (h : inInt64 x) : wrapInt x = x := by
  unfold inInt64 at h
  unfold wrapInt
  norm_num at *
  omega

theorem wrapInt_wrapInt_add (a b : Int) : wrapInt (wrapInt a + b) = wrapInt (a + b) := by
  unfold wrapInt
  norm_num
  omega

theorem mapSet_same (m : Str → Option Int) (k : Str) (v : Int) : mapSet m k v k = some v := by
  simp [mapSet]

theorem mapSet_other (m : Str → Option Int) (k k1 : Str) (v : Int) (h : k1 ≠ k) :
    mapSet m k v k1 = m k1 := by
  simp [mapSet, h]

/-- The two map statements of `process` amount to one assignment. -/
theorem update_eq (m : Str → Option Int) (k : Str) (v : Int) :
    mapSet (if (m k).isNone then mapSet m k 0 else m) k
        (wrapInt (mapGet (if (m k).isNone then mapSet m k 0 else m) k + v)) =
      mapSet m k (wrapInt (mapGet m k + v)) := by
  cases h : m k with
  | none =>
    funext k1
    by_cases hk : k1 = k <;> simp [mapSet, mapGet, h, hk]
  | some x => simp

theorem mapGet_mapSet_same (m : Str → Option Int) (k : Str) (v : Int) :
    mapGet (mapSet m k v) k = v := by
  simp [mapSet, mapGet]

/-! ## What `process` does to a line -/

theorem process_missing (Quote : Str → Str) (s : State) (m : Str) (h : ':' ∉ pairText m) :
    process Quote s m =
      ⟨s, [], some ("invalid name/value pair: \"".data ++ m ++ "\"".data)⟩ := by
  rw [process_eq, if_neg h]

theorem process_invalid (Quote : Str → Str) (s : State) (m : Str) (e : NumError)
    (h : ':' ∈ pairText m) (he : ParseInt (valueText m) = .error e) :
    process Quote s m =
      ⟨s, [], some ("can not convert value to int: \"".data ++ m ++ "\", ".data
                    ++ e.Error Quote)⟩ := by
  rw [process_eq, if_pos h, he]

theorem process_ok (Quote : Str → Str) (s : State) (m : Str) (v : Int)
    (h : ':' ∈ pairText m) (hv : ParseInt (valueText m) = .ok v) :
    process Quote s m =
      ⟨{ s with Metrics :=
          mapSet s.Metrics (nameText m) (wrapInt (mapGet s.Metrics (nameText m) + v)) },
       m ++ "\t (total: ".data
         ++ formatInt (wrapInt (mapGet s.Metrics (nameText m) + v)) ++ ")\n".data,
       none⟩ := by
  rw [process_eq, if_pos h, hv]
  simp only [update_eq, mapGet_mapSet_same]

theorem parseLine_eq_some_iff (m k : Str) (v : Int) :
    parseLine m = some (k, v) ↔
      (':' ∈ pairText m ∧ ParseInt (valueText m) = .ok v ∧ k = nameText m) := by
  unfold parseLine
  rw [ParseInt_ok_iff]
  by_cases h : ':' ∈ pairText m
  · rw [if_pos h]
    cases hl : literalValue (valueText m) with
    | none => simp
    | some w =>
      by_cases hr : inInt64 w
      · simp only [hr, if_true, Option.some.injEq, Prod.mk.injEq, h, true_and]
        constructor
        · rintro ⟨rfl, rfl⟩; exact ⟨⟨rfl, hr⟩, rfl⟩
        · rintro ⟨⟨rfl, _⟩, rfl⟩; exact ⟨rfl, rfl⟩
      · simp only [hr, if_false, h, true_and, Option.some.injEq, false_iff, reduceCtorEq]
        rintro ⟨⟨rfl, h2⟩, _⟩
        exact hr h2
  · simp [h]

theorem parseLine_eq_none_iff (m : Str) :
    parseLine m = none ↔
      (':' ∉ pairText m ∨ (':' ∈ pairText m ∧ ∃ e, ParseInt (valueText m) = .error e)) := by
  constructor
  · intro h
    by_cases hc : ':' ∈ pairText m
    · right
      refine ⟨hc, ?_⟩
      cases hp : ParseInt (valueText m) with
      | error e => exact ⟨e, rfl⟩
      | ok v =>
        have := (parseLine_eq_some_iff m (nameText m) v).2 ⟨hc, hp, rfl⟩
        rw [h] at this
        cases this
    · exact Or.inl hc
  · intro h
    cases hpl : parseLine m with
    | none => rfl
    | some kv =>
      obtain ⟨k, v⟩ := kv
      obtain ⟨h1, h2, _⟩ := (parseLine_eq_some_iff m k v).1 hpl
      rcases h with h | ⟨_, e, he⟩
      · exact absurd h1 h
      · rw [h2] at he; cases he

/-- Whether `process` accepts a line is decided by the grammar alone. -/
theorem process_err_isNone (Quote : Str → Str) (s : State) (m : Str) :
    (process Quote s m).err.isNone = (parseLine m).isSome := by
  cases hpl : parseLine m with
  | none =>
    rcases (parseLine_eq_none_iff m).1 hpl with h | ⟨h, e, he⟩
    · rw [process_missing Quote s m h]; rfl
    · rw [process_invalid Quote s m e h he]; rfl
  | some kv =>
    obtain ⟨k, v⟩ := kv
    obtain ⟨h1, h2, _⟩ := (parseLine_eq_some_iff m k v).1 hpl
    rw [process_ok Quote s m v h1 h2]; rfl

/-- The error `process` returns does not depend on the table. -/
theorem process_err_state (Quote : Str → Str) (s s1 : State) (m : Str) :
    (process Quote s m).err = (process Quote s1 m).err := by
  cases hpl : parseLine m with
  | none =>
    rcases (parseLine_eq_none_iff m).1 hpl with h | ⟨h, e, he⟩
    · rw [process_missing Quote s m h, process_missing Quote s1 m h]
    · rw [process_invalid Quote s m e h he, process_invalid Quote s1 m e h he]
  | some kv =>
    obtain ⟨k, v⟩ := kv
    obtain ⟨h1, h2, _⟩ := (parseLine_eq_some_iff m k v).1 hpl
    rw [process_ok Quote s m v h1 h2, process_ok Quote s1 m v h1 h2]

/-- A rejected line leaves the state as it was. -/
theorem process_state_of_rejected (Quote : Str → Str) (s : State) (m : Str)
    (h : parseLine m = none) : (process Quote s m).state = s := by
  rcases (parseLine_eq_none_iff m).1 h with h | ⟨h, e, he⟩
  · rw [process_missing Quote s m h]
  · rw [process_invalid Quote s m e h he]

/-- An accepted line adds its value, with wrap-around, under its name. -/
theorem process_state_of_accepted (Quote : Str → Str) (s : State) (m k : Str) (v : Int)
    (h : parseLine m = some (k, v)) :
    (process Quote s m).state =
      { s with Metrics := mapSet s.Metrics k (wrapInt (mapGet s.Metrics k + v)) } := by
  obtain ⟨h1, h2, rfl⟩ := (parseLine_eq_some_iff m k v).1 h
  rw [process_ok Quote s m v h1 h2]

/-! ## What `handle` does to a datagram -/

theorem lineError_state (Quote : Str → Str) (s s1 : State) (m : Str) :
    lineError Quote s m = lineError Quote s1 m := by
  unfold lineError
  rw [process_err_state Quote s s1 m]

theorem handleLoop_state (Quote : Str → Str) (ms : List Str) (s : State)
    (errors : List Str) (out : Str) :
    (handleLoop Quote ms s errors out).1 = applyLines Quote s ms := by
  induction ms generalizing s errors out with
  | nil => rfl
  | cons m ms ih =>
    simp only [handleLoop, applyLines, List.foldl_cons]
    cases h : (process Quote s m).err with
    | none => exact ih _ _ _
    | some e => exact ih _ _ _

theorem handleLoop_errors (Quote : Str → Str) (ms : List Str) (s s0 : State)
    (errors : List Str) (out : Str) :
    (handleLoop Quote ms s errors out).2.1 = errors ++ ms.filterMap (lineError Quote s0) := by
  induction ms generalizing s errors out with
  | nil => simp [handleLoop]
  | cons m ms ih =>
    have hl : lineError Quote s0 m = lineError Quote s m := lineError_state Quote s0 s m
    simp only [handleLoop, List.filterMap_cons, hl]
    cases h : (process Quote s m).err with
    | none =>
      simp only [lineError, h, Option.map_none']
      exact ih _ _ _
    | some e =>
      simp only [lineError, h, Option.map_some']
      rw [ih]
      simp

theorem handle_state (Quote : Str → Str) (s : State) (t : Str) :
    (handle Quote s t).state = applyLines Quote s (Split t '\n') := by
  have h := handleLoop_state Quote (Split t '\n') s [] []
  unfold handle
  simp only []
  split <;> exact h

theorem handle_err (Quote : Str → Str) (s : State) (t : Str) :
    (handle Quote s t).err =
      if (Split t '\n').filterMap (lineError Quote s) = [] then none
      else some (Join ((Split t '\n').filterMap (lineError Quote s)) "\n".data) := by
  have h := handleLoop_errors Quote (Split t '\n') s s [] []
  simp only [List.nil_append] at h
  unfold handle
  simp only []
  rw [← h]
  split <;> simp_all

theorem applyLines_cons (Quote : Str → Str) (s : State) (m : Str) (ls : List Str) :
    applyLines Quote s (m :: ls) = applyLines Quote (process Quote s m).state ls := rfl

theorem applyLines_append (Quote : Str → Str) (s : State) (l1 l2 : List Str) :
    applyLines Quote s (l1 ++ l2) = applyLines Quote (applyLines Quote s l1) l2 := by
  simp [applyLines]

/-- Rejected lines contribute nothing to the final state. -/
theorem applyLines_filter (Quote : Str → Str) (s : State) (ls : List Str) :
    applyLines Quote s ls =
      applyLines Quote s (ls.filter (fun m => (process Quote s m).err.isNone)) := by
  induction ls generalizing s with
  | nil => rfl
  | cons m ls ih =>
    have hf : ∀ s1 : State, (fun m => (process Quote s1 m).err.isNone) =
        (fun m => (parseLine m).isSome) := fun s1 => by
      funext m; exact process_err_isNone Quote s1 m
    rw [hf] at *
    cases hpl : parseLine m with
    | none =>
      rw [applyLines_cons, process_state_of_rejected Quote s m hpl, ih s, hf s]
      simp [List.filter_cons, hpl]
    | some kv =>
      rw [applyLines_cons, ih _, hf _]
      simp [List.filter_cons, hpl, applyLines_cons]

theorem accepted_pred_eq (Quote : Str → Str) (s : State) (n : Str) :
    (fun m => (process Quote s m).err.isNone && decide (nameText m = n)) =
      (fun m => (parseLine m).isSome && decide (nameText m = n)) := by
  funext m
  rw [process_err_isNone]

theorem acceptedSum_eq (Quote : Str → Str) (s : State) (n : Str) (ls : List Str) :
    acceptedSum Quote s n ls =
      ((ls.filter (fun m => (parseLine m).isSome && decide (nameText m = n))).map
        lineValue).sum := by
  unfold acceptedSum
  rw [accepted_pred_eq]

theorem lineValue_of_parseLine (m k : Str) (v : Int) (h : parseLine m = some (k, v)) :
    lineValue m = v ∧ nameText m = k := by
  obtain ⟨_, h2, rfl⟩ := (parseLine_eq_some_iff m k v).1 h
  have := ((ParseInt_ok_iff _ _).1 h2).1
  simp [lineValue, this]

/-- The entry of a name after a run of lines: untouched when no accepted line
bears the name, otherwise the old value plus the accepted values, wrapped. -/
theorem applyLines_metrics (Quote : Str → Str) (ls : List Str) (s : State) (n : Str) :
    (applyLines Quote s ls).Metrics n =
      if ls.filter (fun m => (parseLine m).isSome && decide (nameText m = n)) = [] then
        s.Metrics n
      else
        some (wrapInt (mapGet s.Metrics n +
          ((ls.filter (fun m => (parseLine m).isSome && decide (nameText m = n))).map
            lineValue).sum)) := by
  induction ls generalizing s with
  | nil => simp [applyLines]
  | cons m ls ih =>
    rw [applyLines_cons, ih]
    cases hpl : parseLine m with
    | none =>
      rw [process_state_of_rejected Quote s m hpl]
      simp [List.filter_cons, hpl]
    | some kv =>
      obtain ⟨k, v⟩ := kv
      obtain ⟨hv, hk⟩ := lineValue_of_parseLine m k v hpl
      rw [process_state_of_accepted Quote s m k v hpl]
      by_cases hn : k = n
      · subst hn
        simp only [List.filter_cons, hpl, Option.isSome_some, hk, decide_True, Bool.and_self,
          if_true, List.map_cons, List.sum_cons, hv, mapSet_same, mapGet_mapSet_same,
          wrapInt_wrapInt_add, reduceCtorEq, if_false]
        split
        · rename_i h0
          simp [h0]
        · rw [add_assoc]
      · have hn2 : ¬ nameText m = n := by rw [hk]; exact hn
        have hn3 : n ≠ k := fun e => hn e.symm
        simp only [List.filter_cons, hpl, Option.isSome_some, hn2, decide_False,
          Bool.and_false, Bool.false_eq_true, if_false, mapSet_other _ _ _ _ hn3, mapGet]

/-! ## The claims -/

/-- C1: after `handle(t)`, for every name `n`, the counter of `n` (read as Go
reads a map, 0 when absent) is its value before the call plus the sum of the
values of exactly those newline-separated lines of `t` that `process` accepts
under the name `n`, provided that total fits a signed 64-bit integer. -/
theorem C1_handle_accumulates (Quote : Str → Str) (s : State) (t n : Str)
    (h : inInt64 (mapGet s.Metrics n + acceptedSum Quote s n (Split t '\n'))) :
    mapGet (handle Quote s t).state.Metrics n =
      mapGet s.Metrics n + acceptedSum Quote s n (Split t '\n') := by
  rw [acceptedSum_eq] at h ⊢
  rw [handle_state]
  unfold mapGet at h ⊢
  rw [applyLines_metrics]
  split
  · rename_i h0
    simp [h0]
  · simp only [Option.getD_some, mapGet]
    exact wrapInt_of_inInt64 h

/-- C1, witness: from the empty table, `handle("a:5\nb:3\na:2")` returns nil and
leaves the table `{a: 7, b: 3}`. -/
theorem C1_handle_accumulates_witness :
    inInt64 (mapGet (New []).Metrics "a".data +
        acceptedSum quoteAscii (New []) "a".data (Split "a:5\nb:3\na:2".data '\n')) ∧
      mapGet (handle quoteAscii (New []) "a:5\nb:3\na:2".data).state.Metrics "a".data = 7 ∧
      (handle quoteAscii (New []) "a:5\nb:3\na:2".data).state.Metrics =
        mapSet (mapSet emptyMetrics "a".data 7) "b".data 3 ∧
      (handle quoteAscii (New []) "a:5\nb:3\na:2".data).err = none := by
  refine ⟨by decide,
    (C1_handle_accumulates quoteAscii (New []) "a:5\nb:3\na:2".data "a".data
      (by decide)).trans (by decide), ?_, by decide⟩
  have hs : Split "a:5\nb:3\na:2".data '\n' = ["a:5".data, "b:3".data, "a:2".data] := by decide
  rw [handle_state, hs]
  simp only [applyLines, List.foldl_cons, List.foldl_nil]
  rw [process_state_of_accepted quoteAscii _ "a:5".data "a".data 5 (by decide)]
  rw [process_state_of_accepted quoteAscii _ "b:3".data "b".data 3 (by decide)]
  rw [process_state_of_accepted quoteAscii _ "a:2".data "a".data 2 (by decide)]
  funext k
  have hab : ("a".data : Str) ≠ "b".data := by decide
  by_cases ha : k = "a".data
  · subst ha
    simp [mapSet, mapGet, New, emptyMetrics, hab]
    decide
  · by_cases hb : k = "b".data
    · subst hb
      simp [mapSet, mapGet, New, emptyMetrics, ha]
      decide
    · simp [mapSet, mapGet, New, emptyMetrics, ha, hb]

/-- C2 as stated fails when the sum leaves the 64-bit range: with the counter
of `a` at 2^63-1, the accepted line `a:1` leaves -2^63 there, not 2^63. -/
theorem C2_counterexample :
    ':' ∈ pairText "a:1".data ∧
      literalValue (valueText "a:1".data) = some 1 ∧ inInt64 1 ∧
      nameText "a:1".data = "a".data ∧
      (process quoteAscii ⟨[], mapSet emptyMetrics "a".data 9223372036854775807⟩
        "a:1".data).err = none ∧
      (process quoteAscii ⟨[], mapSet emptyMetrics "a".data 9223372036854775807⟩
        "a:1".data).state.Metrics "a".data = some (-9223372036854775808) ∧
      (process quoteAscii ⟨[], mapSet emptyMetrics "a".data 9223372036854775807⟩
        "a:1".data).state.Metrics "a".data ≠
        some (mapGet (mapSet emptyMetrics "a".data 9223372036854775807) "a".data + 1) := by
  decide

/-- C2, amended: `process(m)` succeeds if and only if the text of `m` before
its first `|` contains a `:` and the text between its first and second `:` is a
base-10 integer literal whose value `v` lies in the signed 64-bit range; when
it succeeds the resulting table is the original one with the entry of the name
set to (old value, or 0 if absent) + `v` reduced to the signed 64-bit range by
wrap-around, which is the plain sum whenever that sum is in range; every other
entry is unchanged. -/
theorem C2_process_grammar (Quote : Str → Str) (s : State) (m : Str) :
    ((process Quote s m).err = none ↔
      (':' ∈ pairText m ∧ ∃ v, literalValue (valueText m) = some v ∧ inInt64 v)) ∧
    (∀ v, ':' ∈ pairText m → literalValue (valueText m) = some v → inInt64 v →
      (process Quote s m).state.Metrics =
          mapSet s.Metrics (nameText m) (wrapInt (mapGet s.Metrics (nameText m) + v)) ∧
        (inInt64 (mapGet s.Metrics (nameText m) + v) →
          (process Quote s m).state.Metrics =
            mapSet s.Metrics (nameText m) (mapGet s.Metrics (nameText m) + v))) := by
  constructor
  · constructor
    · intro h
      have h1 : (parseLine m).isSome = true := by
        rw [← process_err_isNone Quote s m, h]; rfl
      obtain ⟨⟨k, v⟩, hkv⟩ := Option.isSome_iff_exists.1 h1
      obtain ⟨hc, hp, _⟩ := (parseLine_eq_some_iff m k v).1 hkv
      exact ⟨hc, v, (ParseInt_ok_iff _ _).1 hp⟩
    · rintro ⟨hc, v, hv⟩
      rw [process_ok Quote s m v hc ((ParseInt_ok_iff _ _).2 hv)]
  · intro v hc hl hr
    have hp := (ParseInt_ok_iff _ _).2 ⟨hl, hr⟩
    rw [process_ok Quote s m v hc hp]
    refine ⟨rfl, fun hsum => ?_⟩
    simp only [wrapInt_of_inInt64 hsum]

/-- C2, witness: on the empty table `a:5` is accepted and sets `a` to 5. -/
theorem C2_process_grammar_witness :
    (':' ∈ pairText "a:5".data ∧ literalValue (valueText "a:5".data) = some 5 ∧ inInt64 5 ∧
        inInt64 (mapGet (New []).Metrics (nameText "a:5".data) + 5)) ∧
      (process quoteAscii (New []) "a:5".data).state.Metrics =
        mapSet (New []).Metrics (nameText "a:5".data)
          (mapGet (New []).Metrics (nameText "a:5".data) + 5) :=
  ⟨by decide,
    ((C2_process_grammar quoteAscii (New []) "a:5".data).2 5 (by decide) (by decide)
      (by decide)).2 (by decide)⟩

/-- C3: if `process(m)` returns an error, the state, and with it the counter
table, is exactly what it was before the call. -/
theorem C3_process_error_no_mutation (Quote : Str → Str) (s : State) (m : Str)
    (h : (process Quote s m).err ≠ none) :
    (process Quote s m).state = s ∧ (process Quote s m).state.Metrics = s.Metrics := by
  have h1 : parseLine m = none := by
    cases hpl : parseLine m with
    | none => rfl
    | some kv =>
      have := process_err_isNone Quote s m
      rw [hpl] at this
      exact absurd (Option.isNone_iff_eq_none.1 this) h
  have := process_state_of_rejected Quote s m h1
  exact ⟨this, by rw [this]⟩

/-- C3, witness: `process("a:notanumber")` fails and neither changes nor
creates the entry of `a`. -/
theorem C3_process_error_no_mutation_witness :
    (process quoteAscii (New []) "a:notanumber".data).err ≠ none ∧
      (process quoteAscii (New []) "a:notanumber".data).state.Metrics = (New []).Metrics ∧
      (process quoteAscii (New []) "a:notanumber".data).state.Metrics "a".data = none :=
  ⟨by decide,
    (C3_process_error_no_mutation quoteAscii (New []) "a:notanumber".data (by decide)).2,
    by decide⟩

theorem filterMap_lineError_eq_nil_iff (Quote : Str → Str) (s : State) (ls : List Str) :
    ls.filterMap (lineError Quote s) = [] ↔ ∀ m ∈ ls, (process Quote s m).err = none := by
  induction ls with
  | nil => simp
  | cons m ls ih =>
    simp only [List.filterMap_cons, List.mem_cons, forall_eq_or_imp]
    cases h : (process Quote s m).err with
    | none => simp [lineError, h, ih]
    | some e => simp [lineError, h]

theorem filterMap_lineError_filter (Quote : Str → Str) (s : State) (ls : List Str) :
    ls.filterMap (lineError Quote s) =
      (ls.filter (fun m => (process Quote s m).err.isSome)).filterMap (lineError Quote s) := by
  induction ls with
  | nil => rfl
  | cons m ls ih =>
    cases h : (process Quote s m).err with
    | none => simp [List.filter_cons, lineError, h, ih]
    | some e => simp [List.filter_cons, lineError, h, ih]

/-- C4: `handle(t)` returns nil if and only if `process` accepts every
newline-separated line of `t`; otherwise it returns an error whose message is
the newline-join, in line order, of the strings
`error processing metric: "<line>", <reason>` for precisely the rejected lines,
`<reason>` being the message of the error `process` returned for the line. -/
theorem C4_handle_error_report (Quote : Str → Str) (s : State) (t : Str) :
    ((handle Quote s t).err = none ↔ ∀ m ∈ Split t '\n', (process Quote s m).err = none) ∧
    ((handle Quote s t).err ≠ none →
      (handle Quote s t).err =
        some (Join ((Split t '\n').filterMap
          (fun m => (process Quote s m).err.map
            (fun e => "error processing metric: \"".data ++ m ++ "\", ".data ++ e)))
          "\n".data)) := by
  have he := handle_err Quote s t
  have hl : lineError Quote s = (fun m => (process Quote s m).err.map
      (fun e => "error processing metric: \"".data ++ m ++ "\", ".data ++ e)) := rfl
  rw [← hl]
  by_cases h : (Split t '\n').filterMap (lineError Quote s) = []
  · rw [if_pos h] at he
    have hall := (filterMap_lineError_eq_nil_iff Quote s _).1 h
    exact ⟨⟨fun _ => hall, fun _ => he⟩, fun hne => absurd he hne⟩
  · rw [if_neg h] at he
    refine ⟨⟨fun h0 => ?_, fun hall => ?_⟩, fun _ => he⟩
    · rw [he] at h0; cases h0
    · exact absurd ((filterMap_lineError_eq_nil_iff Quote s _).2 hall) h

set_option maxRecDepth 100000 in
/-- C4, witness: a datagram with two rejected lines around accepted ones
reports the two failures, in line order, joined by a newline. -/
theorem C4_handle_error_report_witness :
    (handle quoteAscii (New []) "a:1\nbogus\nb:2\nc:x".data).err ≠ none ∧
      (handle quoteAscii (New []) "a:1\nbogus\nb:2\nc:x".data).err =
        some ("error processing metric: \"bogus\", invalid name/value pair: \"bogus\"\n".data ++
          ("error processing metric: \"c:x\", can not convert value to int: \"c:x\", ".data ++
            "strconv.ParseInt: parsing \"x\": invalid syntax".data)) :=
  ⟨by decide,
    ((C4_handle_error_report quoteAscii (New []) "a:1\nbogus\nb:2\nc:x".data).2
      (by decide)).trans (by decide)⟩

theorem Join_singleton (a sep : Str) : Join [a] sep = a := rfl

theorem handle_state_Join (Quote : Str → Str) (s : State) (lines : List Str)
    (hnl : ∀ l ∈ lines, '\n' ∉ l) :
    (handle Quote s (Join lines "\n".data)).state = applyLines Quote s lines := by
  rw [handle_state]
  cases lines with
  | nil =>
    have h0 : parseLine [] = none := by decide
    have : Split (Join [] "\n".data) '\n' = [[]] := by decide
    rw [this, applyLines_cons, process_state_of_rejected Quote s [] h0]
  | cons a rest =>
    have : Split (Join (a :: rest) ['\n']) '\n' = a :: rest :=
      Split_Join (a :: rest) '\n' (by simp) hnl
    have e : ("\n".data : Str) = ['\n'] := rfl
    rw [e, this]

/-- C5: partial-failure isolation.  For every list of (newline-free) lines,
`handle` on their newline-join leaves the state that applying `process` to the
accepted lines alone leaves, so rejected lines neither prevent nor undo the
updates of the accepted lines before or after them; and when exactly one line
`bad` is rejected, the returned error is exactly the one per-line message, the
one of `bad`. -/
theorem C5_partial_failure_isolation (Quote : Str → Str) (s : State) (lines : List Str)
    (hnl : ∀ l ∈ lines, '\n' ∉ l) :
    (handle Quote s (Join lines "\n".data)).state.Metrics =
        (applyLines Quote s
          (lines.filter (fun m => (process Quote s m).err.isNone))).Metrics ∧
      (∀ bad, lines.filter (fun m => (process Quote s m).err.isSome) = [bad] →
        ∃ e, (process Quote s bad).err = some e ∧
          (handle Quote s (Join lines "\n".data)).err =
            some ("error processing metric: \"".data ++ bad ++ "\", ".data ++ e)) := by
  constructor
  · rw [handle_state_Join Quote s lines hnl, ← applyLines_filter]
  · intro bad hbad
    have hmem : bad ∈ lines.filter (fun m => (process Quote s m).err.isSome) := by
      rw [hbad]; simp
    have hrej := (List.mem_filter.1 hmem).2
    obtain ⟨e, he⟩ := Option.isSome_iff_exists.1 hrej
    refine ⟨e, he, ?_⟩
    have hne : lines ≠ [] := by
      rintro rfl; simp at hbad
    have hsp : Split (Join lines "\n".data) '\n' = lines := Split_Join lines '\n' hne hnl
    rw [handle_err, hsp, filterMap_lineError_filter, hbad]
    simp [lineError, he, Join]

/-- C5, witness: one malformed line between two well-formed ones. -/
theorem C5_partial_failure_isolation_witness :
    (∀ l ∈ ["a:1".data, "bogus".data, "b:2".data], '\n' ∉ l) ∧
      ["a:1".data, "bogus".data, "b:2".data].filter
          (fun m => (process quoteAscii (New []) m).err.isSome) = ["bogus".data] ∧
      (handle quoteAscii (New []) (Join ["a:1".data, "bogus".data, "b:2".data] "\n".data)).state.Metrics =
        (applyLines quoteAscii (New []) (["a:1".data, "bogus".data, "b:2".data].filter
          (fun m => (process quoteAscii (New []) m).err.isNone))).Metrics ∧
      (handle quoteAscii (New []) (Join ["a:1".data, "bogus".data, "b:2".data] "\n".data)).err =
        some "error processing metric: \"bogus\", invalid name/value pair: \"bogus\"".data := by
  have hnl : ∀ l ∈ ["a:1".data, "bogus".data, "b:2".data], '\n' ∉ l := by decide
  have h := C5_partial_failure_isolation quoteAscii (New [])
    ["a:1".data, "bogus".data, "b:2".data] hnl
  exact ⟨hnl, by decide, h.1, by decide⟩

theorem ParseInt_error_shape (t : Str) (e : NumError) (h : ParseInt t = .error e) :
    e = ⟨"ParseInt".data, t, e.Err⟩ := by
  cases t with
  | nil =>
    simp only [ParseInt, Except.error.injEq] at h
    rw [← h]
  | cons c cs =>
    simp only [ParseInt] at h
    split at h
    · simp only [Except.error.injEq] at h; rw [← h]
    · simp only [Except.error.injEq] at h; rw [← h]
    · split at h
      · simp only [Except.error.injEq] at h; rw [← h]
      · split at h
        · simp only [Except.error.injEq] at h; rw [← h]
        · cases h

theorem missing_ne_invalid (m x y z : Str) :
    "can not convert value to int: \"".data ++ m ++ x ++ y ≠
      "invalid name/value pair: \"".data ++ m ++ z := by
  intro h
  have h1 := congrArg List.head? h
  revert h1
  show some 'c' = some 'i' → False
  decide

/-- C6: `process(m)` fails with the missing-value error, whose message is
`invalid name/value pair: "<m>"`, if and only if the text of `m` before its
first `|` contains no `:`; in that case the state is unchanged. -/
theorem C6_missing_value (Quote : Str → Str) (s : State) (m : Str) :
    ((process Quote s m).err = some ("invalid name/value pair: \"".data ++ m ++ "\"".data) ↔
      ':' ∉ pairText m) ∧
    (':' ∉ pairText m →
      (process Quote s m).state = s ∧ (process Quote s m).state.Metrics = s.Metrics) := by
  constructor
  · constructor
    · intro h hc
      cases hp : ParseInt (valueText m) with
      | error e =>
        rw [process_invalid Quote s m e hc hp] at h
        exact missing_ne_invalid m _ _ _ (Option.some.inj h)
      | ok v =>
        rw [process_ok Quote s m v hc hp] at h
        cases h
    · intro hc
      rw [process_missing Quote s m hc]
  · intro hc
    rw [process_missing Quote s m hc]
    exact ⟨rfl, rfl⟩

/-- C6, witness: `process("bogus")` returns the missing-value error and
changes nothing. -/
theorem C6_missing_value_witness :
    ':' ∉ pairText "bogus".data ∧
      (process quoteAscii (New []) "bogus".data).err =
        some "invalid name/value pair: \"bogus\"".data ∧
      (process quoteAscii (New []) "bogus".data).state.Metrics = (New []).Metrics :=
  ⟨by decide, by decide,
    ((C6_missing_value quoteAscii (New []) "bogus".data).2 (by decide)).2⟩

theorem not_isInt64Literal_iff (t : Str) :
    isInt64Literal t = false ↔ ∃ e, ParseInt t = .error e := by
  unfold isInt64Literal
  constructor
  · intro h
    cases hp : ParseInt t with
    | error e => exact ⟨e, rfl⟩
    | ok v =>
      obtain ⟨h1, h2⟩ := (ParseInt_ok_iff t v).1 hp
      rw [h1] at h
      simp [h2] at h
  · rintro ⟨e, he⟩
    cases hl : literalValue t with
    | none => rfl
    | some v =>
      by_cases hr : inInt64 v
      · have := (ParseInt_ok_iff t v).2 ⟨hl, hr⟩
        rw [he] at this; cases this
      · simp [hr]

/-- C7: when the text of `m` before the first `|` contains a `:` but the second
colon-segment is not a base-10 integer literal in the signed 64-bit range,
`process(m)` fails with the invalid-value error: its message is
`can not convert value to int: "<m>", ` followed by the text of the error of
`strconv.ParseInt` on that segment (a syntax or a range error), and the state
is unchanged. -/
theorem C7_invalid_value (Quote : Str → Str) (s : State) (m : Str)
    (hc : ':' ∈ pairText m) (hv : isInt64Literal (valueText m) = false) :
    ∃ reason : ConvErr,
      ParseInt (valueText m) = .error ⟨"ParseInt".data, valueText m, reason⟩ ∧
      (process Quote s m).err =
        some ("can not convert value to int: \"".data ++ m ++ "\", ".data ++
          ("strconv.ParseInt: parsing ".data ++ Quote (valueText m) ++ ": ".data ++
            reason.Error)) ∧
      (process Quote s m).state = s ∧ (process Quote s m).state.Metrics = s.Metrics := by
  obtain ⟨e, he⟩ := (not_isInt64Literal_iff _).1 hv
  have hshape := ParseInt_error_shape _ e he
  refine ⟨e.Err, by rw [he, ← hshape], ?_, ?_⟩
  · rw [process_invalid Quote s m e hc he]
    rw [hshape]
    simp [NumError.Error]
  · rw [process_invalid Quote s m e hc he]
    exact ⟨rfl, rfl⟩

set_option maxRecDepth 100000 in
/-- C7, witness: an out-of-range literal, and the messages for an empty and a
non-numeric value. -/
theorem C7_invalid_value_witness :
    (':' ∈ pairText "a:9223372036854775808".data ∧
        isInt64Literal (valueText "a:9223372036854775808".data) = false) ∧
      (∃ reason : ConvErr,
        ParseInt (valueText "a:9223372036854775808".data) =
          .error ⟨"ParseInt".data, valueText "a:9223372036854775808".data, reason⟩ ∧
        (process quoteAscii (New []) "a:9223372036854775808".data).err =
          some ("can not convert value to int: \"".data ++ "a:9223372036854775808".data ++
            "\", ".data ++
            ("strconv.ParseInt: parsing ".data ++
              quoteAscii (valueText "a:9223372036854775808".data) ++ ": ".data ++
              reason.Error)) ∧
        (process quoteAscii (New []) "a:9223372036854775808".data).state = New [] ∧
        (process quoteAscii (New []) "a:9223372036854775808".data).state.Metrics =
          (New []).Metrics) ∧
      (process quoteAscii (New []) "a:9223372036854775808".data).err =
        some ("can not convert value to int: \"a:9223372036854775808\", ".data ++
          "strconv.ParseInt: parsing \"9223372036854775808\": value out of range".data) ∧
      (process quoteAscii (New []) "a:".data).err =
        some ("can not convert value to int: \"a:\", ".data ++
          "strconv.ParseInt: parsing \"\": invalid syntax".data) ∧
      (process quoteAscii (New []) "a:notanumber".data).err =
        some ("can not convert value to int: \"a:notanumber\", ".data ++
          "strconv.ParseInt: parsing \"notanumber\": invalid syntax".data) :=
  ⟨⟨by decide, by decide⟩,
    C7_invalid_value quoteAscii (New []) "a:9223372036854775808".data (by decide) (by decide),
    by decide, by decide, by decide⟩

/-- C8 as stated fails: splitting the empty line on `|` yields one (empty)
segment, not zero, and `process("")` returns the missing-value error, not the
`invalid metric` error. -/
theorem C8_counterexample :
    Split [] '|' = [[]] ∧ (Split [] '|').length ≠ 0 ∧
      (process quoteAscii (New []) []).err = some "invalid name/value pair: \"\"".data ∧
      (process quoteAscii (New []) []).err ≠ some "invalid metric: \"\"".data := by
  decide

/-- C8, amended: when the line is empty, splitting it on `|` yields exactly one
segment, the empty string, and `process("")` fails with the missing-value error
(message `invalid name/value pair: ""`, quoting the original line), not with
the `invalid metric` error or the invalid-value error; the state is unchanged. -/
theorem C8_empty_line (Quote : Str → Str) (s : State) :
    Split [] '|' = [[]] ∧
      (process Quote s []).err = some "invalid name/value pair: \"\"".data ∧
      (process Quote s []).err ≠ some "invalid metric: \"\"".data ∧
      (process Quote s []).err.map errClass = some ErrClass.MissingValue ∧
      (process Quote s []).state = s := by
  have h : ':' ∉ pairText [] := by decide
  rw [process_missing Quote s [] h]
  refine ⟨rfl, rfl, ?_, ?_, rfl⟩
  · show (some ("invalid name/value pair: \"".data ++ [] ++ "\"".data) : Option Str) ≠
      some "invalid metric: \"\"".data
    decide
  · show Option.map errClass (some ("invalid name/value pair: \"".data ++ [] ++ "\"".data)) =
      some ErrClass.MissingValue
    decide

theorem beforeFirst_append_sep (a b : Str) (c : Char) :
    beforeFirst c (a ++ c :: b) = beforeFirst c a := by
  induction a with
  | nil => simp [beforeFirst]
  | cons x xs ih =>
    unfold beforeFirst at ih ⊢
    by_cases hx : x = c
    · simp [hx]
    · simp [List.takeWhile_cons, hx, ih]

theorem beforeFirst_of_not_mem (a : Str) (c : Char) (h : c ∉ a) : beforeFirst c a = a := by
  unfold beforeFirst
  rw [List.takeWhile_eq_self_iff]
  intro x hx
  have : x ≠ c := fun e => h (e ▸ hx)
  simpa using this

theorem afterFirst_append_sep (a b : Str) (c : Char) (h : c ∉ a) :
    afterFirst c (a ++ c :: b) = b := by
  induction a with
  | nil => simp [afterFirst]
  | cons x xs ih =>
    have hx : x ≠ c := fun e => h (by simp [e])
    have hxs : c ∉ xs := fun e => h (by simp [e])
    have := ih hxs
    unfold afterFirst at this ⊢
    simpa [List.dropWhile_cons, hx] using this

theorem errClass_missing (x : Str) :
    errClass ("invalid name/value pair: \"".data ++ x) = ErrClass.MissingValue := by
  simp [errClass, List.isPrefixOf]

theorem errClass_invalid (x : Str) :
    errClass ("can not convert value to int: \"".data ++ x) = ErrClass.InvalidValue := by
  simp [errClass, List.isPrefixOf]

/-- The class of the error of `process`, by the grammar. -/
theorem process_errClass (Quote : Str → Str) (s : State) (m : Str) :
    (process Quote s m).err.map errClass =
      if ':' ∈ pairText m then
        (if isInt64Literal (valueText m) = true then none else some ErrClass.InvalidValue)
      else some ErrClass.MissingValue := by
  by_cases hc : ':' ∈ pairText m
  · rw [if_pos hc]
    cases hp : ParseInt (valueText m) with
    | error e =>
      have hl : isInt64Literal (valueText m) = false := (not_isInt64Literal_iff _).2 ⟨e, hp⟩
      rw [process_invalid Quote s m e hc hp, hl]
      simp only [Option.map_some', List.append_assoc]
      rw [errClass_invalid]
      rfl
    | ok v =>
      have hl : isInt64Literal (valueText m) = true := by
        cases h : isInt64Literal (valueText m) with
        | true => rfl
        | false =>
          obtain ⟨e, he⟩ := (not_isInt64Literal_iff _).1 h
          rw [hp] at he; cases he
      rw [process_ok Quote s m v hc hp, hl]
      rfl
  · rw [if_neg hc, process_missing Quote s m hc]
    simp only [Option.map_some', List.append_assoc]
    rw [errClass_missing]

theorem process_Metrics_by_grammar (Quote : Str → Str) (s : State) (m : Str) :
    (process Quote s m).state.Metrics =
      match parseLine m with
      | some (k, v) => mapSet s.Metrics k (wrapInt (mapGet s.Metrics k + v))
      | none => s.Metrics := by
  cases hpl : parseLine m with
  | none => rw [process_state_of_rejected Quote s m hpl]
  | some kv =>
    obtain ⟨k, v⟩ := kv
    rw [process_state_of_accepted Quote s m k v hpl]

theorem parseLine_congr (m m1 : Str) (h : pairText m1 = pairText m) :
    parseLine m1 = parseLine m := by
  unfold parseLine nameText valueText
  rw [h]

/-- C9: trailing `|`-segments have no effect.  For every state, line `m` and
string `sfx` (with or without a newline), `process(m ++ "|" ++ sfx)` succeeds
exactly when `process(m)` succeeds, fails in the same error class when it
fails, and leaves the same counter table as `process(m)`. -/
theorem C9_trailing_segments_ignored (Quote : Str → Str) (s : State) (m sfx : Str) :
    ((process Quote s (m ++ "|".data ++ sfx)).err = none ↔ (process Quote s m).err = none) ∧
      (process Quote s (m ++ "|".data ++ sfx)).err.map errClass =
        (process Quote s m).err.map errClass ∧
      (process Quote s (m ++ "|".data ++ sfx)).state.Metrics =
        (process Quote s m).state.Metrics := by
  have e : m ++ "|".data ++ sfx = m ++ '|' :: sfx := by
    rw [List.append_assoc]; rfl
  have hp : pairText (m ++ "|".data ++ sfx) = pairText m := by
    rw [e]; exact beforeFirst_append_sep m sfx '|'
  have hpl := parseLine_congr m (m ++ "|".data ++ sfx) hp
  refine ⟨?_, ?_, ?_⟩
  · rw [← Option.isNone_iff_eq_none, ← Option.isNone_iff_eq_none, process_err_isNone,
      process_err_isNone, hpl]
  · rw [process_errClass, process_errClass]
    unfold valueText
    rw [hp]
  · rw [process_Metrics_by_grammar, process_Metrics_by_grammar, hpl]

/-- C9, witness: `process("a:5|c|@0.1|#env:prod")` returns nil and adds 5 to
the counter of `a`, as `process("a:5")` does. -/
theorem C9_trailing_segments_ignored_witness :
    (process quoteAscii (New []) ("a:5".data ++ "|".data ++ "c|@0.1|#env:prod".data)).err = none ∧
      (process quoteAscii (New []) ("a:5".data ++ "|".data ++ "c|@0.1|#env:prod".data)).state.Metrics =
        (process quoteAscii (New []) "a:5".data).state.Metrics ∧
      (process quoteAscii (New []) "a:5|c|@0.1|#env:prod".data).state.Metrics "a".data = some 5 :=
  ⟨by decide,
    (C9_trailing_segments_ignored quoteAscii (New []) "a:5".data "c|@0.1|#env:prod".data).2.2,
    by decide⟩

theorem isDigits_mem (ds : Str) (h : isDigits ds = true) (c : Char) (hc : c ∈ ds) :
    c.isDigit = true := by
  simp only [isDigits, Bool.and_eq_true, List.all_eq_true] at h
  exact h.2 c hc

theorem literal_chars (t : Str) (v : Int) (h : literalValue t = some v) (c : Char)
    (hc : c ∈ t) : c = '+' ∨ c = '-' ∨ c.isDigit = true := by
  cases t with
  | nil => simp at hc
  | cons x xs =>
    simp only [literalValue] at h
    by_cases hp : x = '+'
    · rw [if_pos hp] at h
      split at h
      · rename_i hd
        rcases List.mem_cons.1 hc with rfl | hm
        · exact Or.inl hp
        · exact Or.inr (Or.inr (isDigits_mem xs hd c hm))
      · cases h
    · rw [if_neg hp] at h
      by_cases hm : x = '-'
      · rw [if_pos hm] at h
        split at h
        · rename_i hd
          rcases List.mem_cons.1 hc with rfl | hm2
          · exact Or.inr (Or.inl hm)
          · exact Or.inr (Or.inr (isDigits_mem xs hd c hm2))
        · cases h
      · rw [if_neg hm] at h
        split at h
        · rename_i hd
          exact Or.inr (Or.inr (isDigits_mem (x :: xs) hd c hc))
        · cases h

theorem literal_no_sep (t : Str) (h : isInt64Literal t = true) : ':' ∉ t ∧ '|' ∉ t := by
  unfold isInt64Literal at h
  cases hl : literalValue t with
  | none => rw [hl] at h; cases h
  | some v =>
    constructor
    · intro hc
      rcases literal_chars t v hl ':' hc with h1 | h1 | h1 <;> revert h1 <;> decide
    · intro hc
      rcases literal_chars t v hl '|' hc with h1 | h1 | h1 <;> revert h1 <;> decide

/-- C10: colon-segments beyond the second are ignored.  For every state, every
name `n` containing no `:` or `|`, every base-10 integer literal `v` in the
signed 64-bit range and every string `x` containing no `|`,
`process(n ++ ":" ++ v ++ ":" ++ x)` succeeds and leaves the same counter table
as `process(n ++ ":" ++ v)`, which succeeds too. -/
theorem C10_extra_colon_segments_ignored (Quote : Str → Str) (s : State) (n v x : Str)
    (hn1 : ':' ∉ n) (hn2 : '|' ∉ n) (hv : isInt64Literal v = true) (hx : '|' ∉ x) :
    (process Quote s (n ++ ":".data ++ v ++ ":".data ++ x)).err = none ∧
      (process Quote s (n ++ ":".data ++ v)).err = none ∧
      (process Quote s (n ++ ":".data ++ v ++ ":".data ++ x)).state.Metrics =
        (process Quote s (n ++ ":".data ++ v)).state.Metrics := by
  obtain ⟨hv1, hv2⟩ := literal_no_sep v hv
  have e1 : n ++ ":".data ++ v ++ ":".data ++ x = n ++ ':' :: (v ++ ':' :: x) := by
    simp
  have e0 : n ++ ":".data ++ v = n ++ ':' :: v := by simp
  have hbar : ('|' : Char) ≠ ':' := by decide
  have hp1 : pairText (n ++ ':' :: (v ++ ':' :: x)) = n ++ ':' :: (v ++ ':' :: x) := by
    apply beforeFirst_of_not_mem
    simp [hn2, hv2, hx, hbar]
  have hp0 : pairText (n ++ ':' :: v) = n ++ ':' :: v := by
    apply beforeFirst_of_not_mem
    simp [hn2, hv2, hbar]
  have hname1 : nameText (n ++ ':' :: (v ++ ':' :: x)) = n := by
    unfold nameText
    rw [hp1, beforeFirst_append_sep, beforeFirst_of_not_mem n ':' hn1]
  have hname0 : nameText (n ++ ':' :: v) = n := by
    unfold nameText
    rw [hp0, beforeFirst_append_sep, beforeFirst_of_not_mem n ':' hn1]
  have hval1 : valueText (n ++ ':' :: (v ++ ':' :: x)) = v := by
    unfold valueText
    rw [hp1, afterFirst_append_sep n _ ':' hn1, beforeFirst_append_sep,
      beforeFirst_of_not_mem v ':' hv1]
  have hval0 : valueText (n ++ ':' :: v) = v := by
    unfold valueText
    rw [hp0, afterFirst_append_sep n _ ':' hn1, beforeFirst_of_not_mem v ':' hv1]
  have hpl : parseLine (n ++ ':' :: (v ++ ':' :: x)) = parseLine (n ++ ':' :: v) := by
    unfold parseLine
    rw [hp1, hp0, hname1, hname0, hval1, hval0]
    simp
  have hsome : (parseLine (n ++ ':' :: v)).isSome = true := by
    unfold parseLine
    rw [hp0, hname0, hval0]
    unfold isInt64Literal at hv
    cases hl : literalValue v with
    | none => rw [hl] at hv; cases hv
    | some w =>
      rw [hl] at hv
      have hr : inInt64 w := of_decide_eq_true hv
      simp [hr]
  rw [e1, e0]
  refine ⟨?_, ?_, ?_⟩
  · rw [← Option.isNone_iff_eq_none, process_err_isNone, hpl, hsome]
  · rw [← Option.isNone_iff_eq_none, process_err_isNone, hsome]
  · rw [process_Metrics_by_grammar, process_Metrics_by_grammar, hpl]

/-- C10, witness: `process("a:1:2")` returns nil and adds 1 to the counter of
`a`. -/
theorem C10_extra_colon_segments_ignored_witness :
    (':' ∉ "a".data ∧ '|' ∉ "a".data ∧ isInt64Literal "1".data = true ∧ '|' ∉ "2".data) ∧
      (process quoteAscii (New []) ("a".data ++ ":".data ++ "1".data ++ ":".data ++ "2".data)).err
        = none ∧
      (process quoteAscii (New []) ("a".data ++ ":".data ++ "1".data ++ ":".data ++ "2".data)).state.Metrics
        = (process quoteAscii (New []) ("a".data ++ ":".data ++ "1".data)).state.Metrics ∧
      (process quoteAscii (New []) "a:1:2".data).err = none ∧
      (process quoteAscii (New []) "a:1:2".data).state.Metrics "a".data = some 1 := by
  have h := C10_extra_colon_segments_ignored quoteAscii (New []) "a".data "1".data "2".data
    (by decide) (by decide) (by decide) (by decide)
  exact ⟨by decide, h.1, h.2.2, by decide, by decide⟩

/-! ## Further lemmas on `Join` and on the error report -/

theorem Join_cons_cons (a b : Str) (rest : List Str) (sep : Str) :
    Join (a :: b :: rest) sep = a ++ sep ++ Join (b :: rest) sep := rfl

theorem Join_append (e1 e2 : List Str) (sep : Str) (h1 : e1 ≠ []) (h2 : e2 ≠ []) :
    Join (e1 ++ e2) sep = Join e1 sep ++ sep ++ Join e2 sep := by
  induction e1 with
  | nil => exact absurd rfl h1
  | cons a rest ih =>
    cases rest with
    | nil =>
      cases e2 with
      | nil => exact absurd rfl h2
      | cons b r => rfl
    | cons a2 r =>
      have := ih (by simp)
      rw [List.cons_append, List.cons_append, Join_cons_cons, Join_cons_cons]
      rw [List.cons_append] at this
      rw [this]
      simp [List.append_assoc]

theorem lineError_empty (Quote : Str → Str) (s : State) :
    lineError Quote s [] =
      some "error processing metric: \"\", invalid name/value pair: \"\"".data := by
  have h : ':' ∉ pairText [] := by decide
  unfold lineError
  rw [process_missing Quote s [] h]
  rfl

theorem parseLine_empty : parseLine [] = none := by decide

theorem Split_append_newline (t : Str) : Split (t ++ "\n".data) '\n' = Split t '\n' ++ [[]] := by
  have e : t ++ "\n".data = t ++ '\n' :: [] := rfl
  rw [e, Split_append_sep]
  rfl

theorem applyLines_Addr (Quote : Str → Str) (ls : List Str) (s : State) :
    (applyLines Quote s ls).Addr = s.Addr := by
  induction ls generalizing s with
  | nil => rfl
  | cons m ls ih =>
    rw [applyLines_cons, ih]
    cases hpl : parseLine m with
    | none => rw [process_state_of_rejected Quote s m hpl]
    | some kv =>
      obtain ⟨k, v⟩ := kv
      rw [process_state_of_accepted Quote s m k v hpl]

theorem State_ext (a b : State) (h1 : a.Addr = b.Addr) (h2 : a.Metrics = b.Metrics) : a = b := by
  cases a; cases b; simp_all

/-- The error of `handle`, read off the list of per-line messages. -/
theorem handle_err_of_messages (Quote : Str → Str) (s : State) (t : Str) (es : List Str)
    (h : (Split t '\n').filterMap (lineError Quote s) = es) :
    (handle Quote s t).err = if es = [] then none else some (Join es "\n".data) := by
  rw [handle_err, h]

/-! ## The claims, continued -/

/-- C11: a trailing newline yields one extra empty-line error and nothing else.
For every state and text `t`, `handle(t ++ "\n")` returns a non-nil error: the
newline-join of the per-line messages of `t` followed, as the last one, by the
message of the empty line, `error processing metric: "", invalid name/value
pair: ""`; so it is that message alone when `handle(t)` returns nil, and the
error of `handle(t)`, a newline and that message otherwise.  The state it
leaves is exactly the one `handle(t)` leaves. -/
theorem C11_trailing_newline (Quote : Str → Str) (s : State) (t : Str) :
    (handle Quote s (t ++ "\n".data)).err =
        some (Join ((Split t '\n').filterMap (lineError Quote s) ++
          ["error processing metric: \"\", invalid name/value pair: \"\"".data]) "\n".data) ∧
      (handle Quote s (t ++ "\n".data)).err =
        some (match (handle Quote s t).err with
          | none => "error processing metric: \"\", invalid name/value pair: \"\"".data
          | some e =>
            e ++ "\n".data ++
              "error processing metric: \"\", invalid name/value pair: \"\"".data) ∧
      (handle Quote s (t ++ "\n".data)).state = (handle Quote s t).state ∧
      (handle Quote s (t ++ "\n".data)).state.Metrics = (handle Quote s t).state.Metrics := by
  have hs : (handle Quote s (t ++ "\n".data)).state = (handle Quote s t).state := by
    rw [handle_state, handle_state, Split_append_newline, applyLines_append, applyLines_cons,
      process_state_of_rejected Quote _ [] parseLine_empty]
    rfl
  have hm : (Split (t ++ "\n".data) '\n').filterMap (lineError Quote s) =
      (Split t '\n').filterMap (lineError Quote s) ++
        ["error processing metric: \"\", invalid name/value pair: \"\"".data] := by
    rw [Split_append_newline, List.filterMap_append]
    simp [lineError_empty]
  have he := handle_err_of_messages Quote s (t ++ "\n".data) _ hm
  rw [if_neg (by simp)] at he
  refine ⟨he, ?_, hs, by rw [hs]⟩
  rw [he, handle_err]
  by_cases h0 : (Split t '\n').filterMap (lineError Quote s) = []
  · rw [if_pos h0, h0]
    rfl
  · rw [if_neg h0, Join_append _ _ _ h0 (by simp)]
    rfl

/-- C11, witness: `handle("a:1\n")` adds 1 to the counter of `a` and returns an
error that is exactly the one message of the empty line. -/
theorem C11_trailing_newline_witness :
    (handle quoteAscii (New []) ("a:1".data ++ "\n".data)).err =
        some "error processing metric: \"\", invalid name/value pair: \"\"".data ∧
      (handle quoteAscii (New []) ("a:1".data ++ "\n".data)).state.Metrics =
        (handle quoteAscii (New []) "a:1".data).state.Metrics ∧
      (handle quoteAscii (New []) "a:1\n".data).state.Metrics "a".data = some 1 :=
  ⟨(C11_trailing_newline quoteAscii (New []) "a:1".data).2.1.trans (by decide),
    (C11_trailing_newline quoteAscii (New []) "a:1".data).2.2.2, by decide⟩

/-- C12: repeated datagrams are additive.  Calling `handle(t)` twice in
succession returns the second time what it returned the first time (nil, or the
same message), and leaves under every name `n` its initial value plus twice the
sum of the values of the accepted lines of `t` named `n`, provided that total
fits a signed 64-bit integer. -/
theorem C12_repeated_datagram_additive (Quote : Str → Str) (s : State) (t n : Str)
    (h : inInt64 (mapGet s.Metrics n + 2 * acceptedSum Quote s n (Split t '\n'))) :
    (handle Quote (handle Quote s t).state t).err = (handle Quote s t).err ∧
      mapGet (handle Quote (handle Quote s t).state t).state.Metrics n =
        mapGet s.Metrics n + 2 * acceptedSum Quote s n (Split t '\n') := by
  constructor
  · rw [handle_err, handle_err]
    have : lineError Quote (handle Quote s t).state = lineError Quote s := by
      funext m; exact lineError_state Quote _ _ m
    rw [this]
  · rw [acceptedSum_eq] at h ⊢
    rw [handle_state, handle_state, ← applyLines_append]
    unfold mapGet at h ⊢
    rw [applyLines_metrics]
    simp only [List.filter_append, List.map_append, List.sum_append, List.append_eq_nil,
      and_self]
    split
    · rename_i h0
      simp [h0]
    · simp only [Option.getD_some, mapGet]
      rw [← two_mul]
      exact wrapInt_of_inInt64 h

/-- C12, witness: from the empty table, `handle("a:1")` twice gives the counter
of `a` the value 2, never 1. -/
theorem C12_repeated_datagram_additive_witness :
    inInt64 (mapGet (New []).Metrics "a".data +
        2 * acceptedSum quoteAscii (New []) "a".data (Split "a:1".data '\n')) ∧
      mapGet (handle quoteAscii (handle quoteAscii (New []) "a:1".data).state
        "a:1".data).state.Metrics "a".data = 2 ∧
      (handle quoteAscii (handle quoteAscii (New []) "a:1".data).state "a:1".data).err =
        (handle quoteAscii (New []) "a:1".data).err :=
  ⟨by decide,
    (C12_repeated_datagram_additive quoteAscii (New []) "a:1".data "a".data
      (by decide)).2.trans (by decide),
    (C12_repeated_datagram_additive quoteAscii (New []) "a:1".data "a".data (by decide)).1⟩

/-- The state a run of lines leaves does not depend on their order. -/
theorem applyLines_perm (Quote : Str → Str) (s : State) (l1 l2 : List Str)
    (hp : l1.Perm l2) : applyLines Quote s l1 = applyLines Quote s l2 := by
  apply State_ext
  · rw [applyLines_Addr, applyLines_Addr]
  · funext n
    rw [applyLines_metrics, applyLines_metrics]
    have hf := hp.filter (fun m => (parseLine m).isSome && decide (nameText m = n))
    have hsum := (hf.map lineValue).sum_eq
    rw [hsum]
    by_cases h0 : l2.filter (fun m => (parseLine m).isSome && decide (nameText m = n)) = []
    · rw [if_pos h0, if_pos]
      rw [h0] at hf
      exact hf.eq_nil
    · rw [if_neg h0, if_neg]
      intro h1
      rw [h1] at hf
      exact h0 hf.symm.eq_nil

/-- C13: the final counter table is independent of line order.  For every
state, every list of (newline-free) lines and every permutation of it, `handle`
on the newline-join of the permuted list leaves the same state as `handle` on
the newline-join of the original list, and returns nil for the one exactly when
it returns nil for the other.  Only the order of the per-line error messages
may differ: the messages collected for the permuted datagram (the `errors`
slice of `handle`, one message per rejected line) are a permutation of those
collected for the original one, and each call returns the newline-join of its
own messages, in the order of its lines. -/
theorem C13_order_independent (Quote : Str → Str) (s : State) (lines lines1 : List Str)
    (hp : lines1.Perm lines) (hnl : ∀ l ∈ lines, '\n' ∉ l) :
    (handle Quote s (Join lines1 "\n".data)).state.Metrics =
        (handle Quote s (Join lines "\n".data)).state.Metrics ∧
      (handle Quote s (Join lines1 "\n".data)).state =
        (handle Quote s (Join lines "\n".data)).state ∧
      ((handle Quote s (Join lines1 "\n".data)).err = none ↔
        (handle Quote s (Join lines "\n".data)).err = none) ∧
      ((Split (Join lines1 "\n".data) '\n').filterMap (lineError Quote s)).Perm
        ((Split (Join lines "\n".data) '\n').filterMap (lineError Quote s)) ∧
      ((handleLoop Quote (Split (Join lines1 "\n".data) '\n') s [] []).2.1).Perm
        ((handleLoop Quote (Split (Join lines "\n".data) '\n') s [] []).2.1) ∧
      (handle Quote s (Join lines1 "\n".data)).err =
        (if (Split (Join lines1 "\n".data) '\n').filterMap (lineError Quote s) = [] then none
         else some (Join ((Split (Join lines1 "\n".data) '\n').filterMap (lineError Quote s))
           "\n".data)) ∧
      (handle Quote s (Join lines "\n".data)).err =
        (if (Split (Join lines "\n".data) '\n').filterMap (lineError Quote s) = [] then none
         else some (Join ((Split (Join lines "\n".data) '\n').filterMap (lineError Quote s))
           "\n".data)) := by
  have hnl1 : ∀ l ∈ lines1, '\n' ∉ l := fun l hl => hnl l (hp.mem_iff.1 hl)
  have hs : (handle Quote s (Join lines1 "\n".data)).state =
      (handle Quote s (Join lines "\n".data)).state := by
    rw [handle_state_Join Quote s lines1 hnl1, handle_state_Join Quote s lines hnl]
    exact applyLines_perm Quote s _ _ hp
  have hperm : ((Split (Join lines1 "\n".data) '\n').filterMap (lineError Quote s)).Perm
      ((Split (Join lines "\n".data) '\n').filterMap (lineError Quote s)) := by
    by_cases h0 : lines = []
    · subst h0
      rw [hp.eq_nil]
    · have h1 : lines1 ≠ [] := fun e => h0 (by rw [e] at hp; exact hp.symm.eq_nil)
      have e : ("\n".data : Str) = ['\n'] := rfl
      rw [e, Split_Join lines1 '\n' h1 hnl1, Split_Join lines '\n' h0 hnl]
      exact hp.filterMap (lineError Quote s)
  have hloop : ((handleLoop Quote (Split (Join lines1 "\n".data) '\n') s [] []).2.1).Perm
      ((handleLoop Quote (Split (Join lines "\n".data) '\n') s [] []).2.1) := by
    rw [handleLoop_errors Quote _ s s [] [], handleLoop_errors Quote _ s s [] []]
    exact hperm
  refine ⟨by rw [hs], hs, ?_, hperm, hloop, handle_err Quote s _, handle_err Quote s _⟩
  rw [handle_err, handle_err]
  by_cases h2 : (Split (Join lines "\n".data) '\n').filterMap (lineError Quote s) = []
  · rw [if_pos h2, if_pos]
    rw [h2] at hperm
    exact hperm.eq_nil
  · rw [if_neg h2, if_neg]
    · simp
    · intro h3
      rw [h3] at hperm
      exact h2 hperm.symm.eq_nil

set_option maxRecDepth 100000 in
/-- C13, witness: three lines, two of them rejected, in two orders: the state
is the same, the two messages are the same and come in the order of the
lines. -/
theorem C13_order_independent_witness :
    (["y".data, "a:1".data, "x".data].Perm ["x".data, "a:1".data, "y".data] ∧
        ∀ l ∈ ["x".data, "a:1".data, "y".data], '\n' ∉ l) ∧
      (handle quoteAscii (New []) (Join ["y".data, "a:1".data, "x".data] "\n".data)).state =
        (handle quoteAscii (New []) (Join ["x".data, "a:1".data, "y".data] "\n".data)).state ∧
      ((Split (Join ["y".data, "a:1".data, "x".data] "\n".data) '\n').filterMap
          (lineError quoteAscii (New []))).Perm
        ((Split (Join ["x".data, "a:1".data, "y".data] "\n".data) '\n').filterMap
          (lineError quoteAscii (New []))) ∧
      (handle quoteAscii (New []) (Join ["y".data, "a:1".data, "x".data] "\n".data)).err =
        some ("error processing metric: \"y\", invalid name/value pair: \"y\"\n".data ++
          "error processing metric: \"x\", invalid name/value pair: \"x\"".data) ∧
      (handle quoteAscii (New []) (Join ["x".data, "a:1".data, "y".data] "\n".data)).err =
        some ("error processing metric: \"x\", invalid name/value pair: \"x\"\n".data ++
          "error processing metric: \"y\", invalid name/value pair: \"y\"".data) := by
  have hp : ["y".data, "a:1".data, "x".data].Perm ["x".data, "a:1".data, "y".data] := by
    decide
  have hnl : ∀ l ∈ ["x".data, "a:1".data, "y".data], '\n' ∉ l := by decide
  have h := C13_order_independent quoteAscii (New []) _ _ hp hnl
  exact ⟨⟨hp, hnl⟩, h.2.1, h.2.2.2.1, h.2.2.2.2.2.1.trans (by decide),
    h.2.2.2.2.2.2.trans (by decide)⟩

theorem isInt64Literal_of_value (v : Str) (val : Int) (hl : literalValue v = some val)
    (hr : inInt64 val) : isInt64Literal v = true := by
  unfold isInt64Literal
  rw [hl]
  simp [hr]

/-- The line `n:v` parses to the name `n`, verbatim, and the value of `v`. -/
theorem parseLine_name_value (n v : Str) (val : Int) (hn1 : ':' ∉ n) (hn2 : '|' ∉ n)
    (hl : literalValue v = some val) (hr : inInt64 val) :
    parseLine (n ++ ":".data ++ v) = some (n, val) := by
  obtain ⟨hv1, hv2⟩ := literal_no_sep v (isInt64Literal_of_value v val hl hr)
  have e0 : n ++ ":".data ++ v = n ++ ':' :: v := by simp
  have hbar : ('|' : Char) ≠ ':' := by decide
  have hp0 : pairText (n ++ ':' :: v) = n ++ ':' :: v := by
    apply beforeFirst_of_not_mem
    simp [hn2, hv2, hbar]
  have hname0 : nameText (n ++ ':' :: v) = n := by
    unfold nameText
    rw [hp0, beforeFirst_append_sep, beforeFirst_of_not_mem n ':' hn1]
  have hval0 : valueText (n ++ ':' :: v) = v := by
    unfold valueText
    rw [hp0, afterFirst_append_sep n _ ':' hn1, beforeFirst_of_not_mem v ':' hv1]
  rw [e0]
  unfold parseLine
  rw [hp0, hname0, hval0, hl]
  simp [hr]

/-- C14 as stated fails when the sum leaves the 64-bit range: with the entry of
the empty name at 2^63-1, the accepted line `:1` leaves -2^63 there, which is
not the old value plus 1. -/
theorem C14_counterexample :
    isInt64Literal "1".data = true ∧ literalValue "1".data = some 1 ∧
      (process quoteAscii ⟨[], mapSet emptyMetrics [] 9223372036854775807⟩
        (":".data ++ "1".data)).err = none ∧
      (process quoteAscii ⟨[], mapSet emptyMetrics [] 9223372036854775807⟩
        (":".data ++ "1".data)).state.Metrics [] = some (-9223372036854775808) ∧
      (process quoteAscii ⟨[], mapSet emptyMetrics [] 9223372036854775807⟩
        (":".data ++ "1".data)).state.Metrics [] ≠
        some (mapGet (mapSet emptyMetrics [] 9223372036854775807) [] + 1) := by
  decide

/-- C14, amended: an empty metric name is accepted and the name is taken
verbatim.  For every state and every base-10 integer literal `v` of value `val`
in the signed 64-bit range, `process(":" ++ v)` succeeds and sets the entry
keyed by the empty string to its old value (0 if absent) plus `val`, reduced to
the signed 64-bit range by wrap-around (so it adds exactly `val` whenever the
sum is in range); and for every name `n` containing no `:` or `|`,
`process(n ++ ":" ++ v)` succeeds and updates in the same way the entry keyed
by exactly `n`, untrimmed, leaving every other entry as it was. -/
theorem C14_name_verbatim (Quote : Str → Str) (s : State) (v : Str) (val : Int)
    (hl : literalValue v = some val) (hr : inInt64 val) :
    ((process Quote s (":".data ++ v)).err = none ∧
      (process Quote s (":".data ++ v)).state.Metrics =
        mapSet s.Metrics [] (wrapInt (mapGet s.Metrics [] + val)) ∧
      (inInt64 (mapGet s.Metrics [] + val) →
        (process Quote s (":".data ++ v)).state.Metrics =
          mapSet s.Metrics [] (mapGet s.Metrics [] + val))) ∧
    (∀ n : Str, ':' ∉ n → '|' ∉ n →
      (process Quote s (n ++ ":".data ++ v)).err = none ∧
      (process Quote s (n ++ ":".data ++ v)).state.Metrics =
        mapSet s.Metrics n (wrapInt (mapGet s.Metrics n + val)) ∧
      (inInt64 (mapGet s.Metrics n + val) →
        (process Quote s (n ++ ":".data ++ v)).state.Metrics =
          mapSet s.Metrics n (mapGet s.Metrics n + val))) := by
  have main : ∀ n : Str, ':' ∉ n → '|' ∉ n →
      (process Quote s (n ++ ":".data ++ v)).err = none ∧
      (process Quote s (n ++ ":".data ++ v)).state.Metrics =
        mapSet s.Metrics n (wrapInt (mapGet s.Metrics n + val)) ∧
      (inInt64 (mapGet s.Metrics n + val) →
        (process Quote s (n ++ ":".data ++ v)).state.Metrics =
          mapSet s.Metrics n (mapGet s.Metrics n + val)) := by
    intro n hn1 hn2
    have hpl := parseLine_name_value n v val hn1 hn2 hl hr
    have herr : (process Quote s (n ++ ":".data ++ v)).err = none := by
      rw [← Option.isNone_iff_eq_none, process_err_isNone, hpl]
      rfl
    have hst := process_state_of_accepted Quote s _ n val hpl
    refine ⟨herr, by rw [hst], fun hsum => ?_⟩
    rw [hst]
    simp only [wrapInt_of_inInt64 hsum]
  exact ⟨main [] (by simp) (by simp), main⟩

/-- C14, witness: the name ` a ` keeps its spaces: the entry keyed ` a ` is set,
the entry keyed `a` is not created; and `:7` sets the entry of the empty name. -/
theorem C14_name_verbatim_witness :
    (literalValue "7".data = some 7 ∧ inInt64 7 ∧ ':' ∉ " a ".data ∧ '|' ∉ " a ".data ∧
        inInt64 (mapGet (New []).Metrics [] + 7)) ∧
      (process quoteAscii (New []) (":".data ++ "7".data)).state.Metrics =
        mapSet (New []).Metrics [] (mapGet (New []).Metrics [] + 7) ∧
      (process quoteAscii (New []) (" a ".data ++ ":".data ++ "7".data)).err = none ∧
      (process quoteAscii (New []) " a :7".data).state.Metrics " a ".data = some 7 ∧
      (process quoteAscii (New []) " a :7".data).state.Metrics "a".data = none ∧
      (process quoteAscii (New []) ":7".data).state.Metrics [] = some 7 := by
  have h := C14_name_verbatim quoteAscii (New []) "7".data 7 (by decide) (by decide)
  exact ⟨by decide, h.1.2.2 (by decide), (h.2 " a ".data (by decide) (by decide)).1,
    by decide, by decide, by decide⟩

/-- C15: entries are created lazily and never deleted.  A name is a key of the
table after `handle(t)` if and only if it was a key before the call or it is
the name of some line of `t` that `process` accepted; a key present before the
call is present after it; and a key that was absent and whose accepted lines
carry values summing to 0 (a single line of value 0, say) holds 0. -/
theorem C15_keys_lazy_never_deleted (Quote : Str → Str) (s : State) (t n : Str) :
    (((handle Quote s t).state.Metrics n).isSome = true ↔
      ((s.Metrics n).isSome = true ∨
        ∃ m ∈ Split t '\n', (process Quote s m).err = none ∧ nameText m = n)) ∧
    ((s.Metrics n).isSome = true → ((handle Quote s t).state.Metrics n).isSome = true) ∧
    (s.Metrics n = none →
      (∃ m ∈ Split t '\n', (process Quote s m).err = none ∧ nameText m = n) →
      acceptedSum Quote s n (Split t '\n') = 0 →
      (handle Quote s t).state.Metrics n = some 0) := by
  have hex : (∃ m ∈ Split t '\n', (process Quote s m).err = none ∧ nameText m = n) ↔
      (Split t '\n').filter (fun m => (parseLine m).isSome && decide (nameText m = n)) ≠ [] := by
    rw [Ne, List.filter_eq_nil_iff]
    constructor
    · rintro ⟨m, hm, he, hn⟩ hall
      have := hall m hm
      rw [← process_err_isNone Quote s m, he] at this
      simp [hn] at this
    · intro hall
      by_contra hne
      apply hall
      intro m hm hp
      apply hne
      simp only [Bool.and_eq_true, decide_eq_true_eq] at hp
      refine ⟨m, hm, ?_, hp.2⟩
      rw [← Option.isNone_iff_eq_none, process_err_isNone]
      exact hp.1
  have hm := applyLines_metrics Quote (Split t '\n') s n
  rw [← handle_state] at hm
  refine ⟨?_, ?_, ?_⟩
  · rw [hex, hm]
    by_cases h0 : (Split t '\n').filter
        (fun m => (parseLine m).isSome && decide (nameText m = n)) = []
    · simp [h0]
    · simp [h0]
  · intro hk
    rw [hm]
    split
    · exact hk
    · rfl
  · intro hnone hacc hsum
    rw [acceptedSum_eq] at hsum
    rw [hm, if_neg (hex.1 hacc), hsum]
    simp only [mapGet, hnone, Option.getD_none, add_zero]
    rfl

/-- C15, witness: `handle("z:0")` on the empty table creates the entry of `z`,
holding 0. -/
theorem C15_keys_lazy_never_deleted_witness :
    ((New []).Metrics "z".data = none ∧
        (∃ m ∈ Split "z:0".data '\n',
          (process quoteAscii (New []) m).err = none ∧ nameText m = "z".data) ∧
        acceptedSum quoteAscii (New []) "z".data (Split "z:0".data '\n') = 0) ∧
      (handle quoteAscii (New []) "z:0".data).state.Metrics "z".data = some 0 := by
  have h1 : (New []).Metrics "z".data = none := rfl
  have h2 : ∃ m ∈ Split "z:0".data '\n',
      (process quoteAscii (New []) m).err = none ∧ nameText m = "z".data :=
    ⟨"z:0".data, by decide, by decide, by decide⟩
  have h3 : acceptedSum quoteAscii (New []) "z".data (Split "z:0".data '\n') = 0 := by decide
  exact ⟨⟨h1, h2, h3⟩,
    (C15_keys_lazy_never_deleted quoteAscii (New []) "z:0".data "z".data).2.2 h1 h2 h3⟩

/-! ## The decimal rendering -/

theorem digitChar_lt_ten (k : Nat) (hk : k < 10) :
    (Nat.digitChar k).isDigit = true ∧ (Nat.digitChar k).toNat - '0'.toNat = k := by
  interval_cases k <;> exact ⟨rfl, rfl⟩

theorem toDigitsCore_ne_nil (f n : Nat) (ds : Str) (h : 0 < f ∨ ds ≠ []) :
    Nat.toDigitsCore 10 f n ds ≠ [] := by
  induction f generalizing n ds with
  | zero =>
    rcases h with h | h
    · omega
    · simpa [Nat.toDigitsCore] using h
  | succ f ih =>
    simp only [Nat.toDigitsCore]
    split
    · simp
    · exact ih _ _ (Or.inr (by simp))

theorem toDigitsCore_all_digits (f n : Nat) (ds : Str) (h : ∀ c ∈ ds, c.isDigit = true) :
    ∀ c ∈ Nat.toDigitsCore 10 f n ds, c.isDigit = true := by
  induction f generalizing n ds with
  | zero => simpa [Nat.toDigitsCore] using h
  | succ f ih =>
    have hd := (digitChar_lt_ten (n % 10) (Nat.mod_lt _ (by omega))).1
    simp only [Nat.toDigitsCore]
    split
    · intro c hc
      rcases List.mem_cons.1 hc with rfl | hc
      · exact hd
      · exact h c hc
    · apply ih
      intro c hc
      rcases List.mem_cons.1 hc with rfl | hc
      · exact hd
      · exact h c hc

theorem toDigitsCore_value (f n : Nat) (ds : Str) (h : n < f) :
    (Nat.toDigitsCore 10 f n ds).foldl (fun n c => 10 * n + (c.toNat - '0'.toNat)) 0 =
      ds.foldl (fun n c => 10 * n + (c.toNat - '0'.toNat)) n := by
  induction f generalizing n ds with
  | zero => omega
  | succ f ih =>
    have hd := (digitChar_lt_ten (n % 10) (Nat.mod_lt _ (by omega))).2
    simp only [Nat.toDigitsCore]
    split
    · rename_i h0
      simp only [List.foldl_cons, hd]
      have : n % 10 = n := by omega
      simp [this]
    · rename_i h0
      rw [ih (n / 10) _ (by omega)]
      simp only [List.foldl_cons, hd]
      have : 10 * (n / 10) + n % 10 = n := by omega
      rw [this]

theorem toDigits_isDigits (n : Nat) : isDigits (Nat.toDigits 10 n) = true := by
  have h1 := toDigitsCore_ne_nil (n + 1) n [] (Or.inl (by omega))
  have h2 := toDigitsCore_all_digits (n + 1) n [] (by simp)
  unfold isDigits Nat.toDigits
  simp only [Bool.and_eq_true, Bool.not_eq_true', List.all_eq_true]
  refine ⟨?_, h2⟩
  cases h : Nat.toDigitsCore 10 (n + 1) n [] with
  | nil => exact absurd h h1
  | cons c cs => rfl

theorem toDigits_value (n : Nat) : digitsValue (Nat.toDigits 10 n) = n := by
  unfold digitsValue Nat.toDigits
  rw [toDigitsCore_value (n + 1) n [] (by omega)]
  rfl

/-- What `%d` prints is the decimal literal of the number printed. -/
theorem literalValue_formatInt (i : Int) : literalValue (formatInt i) = some i := by
  have hd := toDigits_isDigits i.natAbs
  have hv := toDigits_value i.natAbs
  unfold formatInt
  by_cases hneg : i < 0
  · rw [if_pos hneg]
    simp only [literalValue, show ¬ ('-' = '+') by decide, if_false, if_true, hd, hv]
    congr 1
    omega
  · rw [if_neg hneg]
    cases hc : Nat.toDigits 10 i.natAbs with
    | nil => rw [hc] at hd; cases hd
    | cons c cs =>
      rw [hc] at hd hv
      obtain ⟨h1, h2⟩ := isDigits_head_not_sign c cs hd
      simp only [literalValue, if_neg h1, if_neg h2, hd, if_true, hv]
      congr 1
      omega

theorem formatInt_no_newline (i : Int) : '\n' ∉ formatInt i := by
  have h2 := toDigitsCore_all_digits (i.natAbs + 1) i.natAbs [] (by simp)
  have hnd : ∀ c ∈ Nat.toDigits 10 i.natAbs, c ≠ '\n' := by
    intro c hc e
    have := h2 c hc
    rw [e] at this
    revert this
    decide
  unfold formatInt
  split
  · intro h
    rcases List.mem_cons.1 h with h | h
    · revert h; decide
    · exact hnd _ h rfl
  · intro h
    exact hnd _ h rfl

/-- C16 as stated fails: the code prints a space between the tab and
`(total: N)`. -/
theorem C16_counterexample :
    (process quoteAscii (New []) "a:5".data).err = none ∧
      (process quoteAscii (New []) "a:5".data).out = "a:5\t (total: 5)\n".data ∧
      (process quoteAscii (New []) "a:5".data).out ≠ "a:5\t(total: 5)\n".data ∧
      (process quoteAscii (New []) "a:5".data).out ≠ "a:5\t(total: 5)".data := by
  decide

/-- C16, amended: for every line `m` that `process` accepts, `process` prints
exactly one output line: the metric text `m`, then a tab character, then a
space, then `(total: N)` and a newline, where `N` is the decimal rendering of
the new running total of the name after the update; a rejected line prints
nothing. -/
theorem C16_output_line (Quote : Str → Str) (s : State) (m : Str) :
    ((process Quote s m).err = none →
      (process Quote s m).out =
          m ++ "\t (total: ".data ++
            formatInt (mapGet (process Quote s m).state.Metrics (nameText m)) ++ ")\n".data ∧
        literalValue (formatInt (mapGet (process Quote s m).state.Metrics (nameText m))) =
          some (mapGet (process Quote s m).state.Metrics (nameText m)) ∧
        ('\n' ∉ m → (process Quote s m).out.count '\n' = 1)) ∧
    ((process Quote s m).err ≠ none → (process Quote s m).out = []) := by
  cases hpl : parseLine m with
  | none =>
    have hrej : (process Quote s m).err ≠ none := by
      intro h
      have := process_err_isNone Quote s m
      rw [h, hpl] at this
      cases this
    refine ⟨fun h => absurd h hrej, fun _ => ?_⟩
    rcases (parseLine_eq_none_iff m).1 hpl with h | ⟨h, e, he⟩
    · rw [process_missing Quote s m h]
    · rw [process_invalid Quote s m e h he]
  | some kv =>
    obtain ⟨k, v⟩ := kv
    obtain ⟨h1, h2, _⟩ := (parseLine_eq_some_iff m k v).1 hpl
    have hok := process_ok Quote s m v h1 h2
    refine ⟨fun _ => ⟨?_, literalValue_formatInt _, fun hm => ?_⟩, fun h => ?_⟩
    · rw [hok]
      simp only [mapGet_mapSet_same]
    · rw [hok]
      have hf := formatInt_no_newline (wrapInt (mapGet s.Metrics (nameText m) + v))
      simp only [List.count_append, List.count_eq_zero_of_not_mem hm,
        List.count_eq_zero_of_not_mem hf]
      decide
    · rw [hok] at h
      exact absurd rfl h

/-- C16, witness: the line printed for `a:5` on the empty table, and nothing
for `bogus`. -/
theorem C16_output_line_witness :
    ((process quoteAscii (New []) "a:5".data).err = none ∧ '\n' ∉ "a:5".data ∧
        (process quoteAscii (New []) "bogus".data).err ≠ none) ∧
      (process quoteAscii (New []) "a:5".data).out.count '\n' = 1 ∧
      (process quoteAscii (New []) "a:5".data).out = "a:5\t (total: 5)\n".data ∧
      (process quoteAscii (New []) "bogus".data).out = [] :=
  ⟨by decide,
    ((C16_output_line quoteAscii (New []) "a:5".data).1 (by decide)).2.2 (by decide),
    ((C16_output_line quoteAscii (New []) "a:5".data).1 (by decide)).1.trans (by decide),
    (C16_output_line quoteAscii (New []) "bogus".data).2 (by decide)⟩

theorem empty_msg_ne_missing (m x y : Str) :
    "invalid metric: \"".data ++ m ++ x ≠ "invalid name/value pair: \"".data ++ m ++ y := by
  intro h
  have h1 := congrArg (fun l => (List.drop 8 l).head?) h
  revert h1
  show some 'm' = some 'n' → False
  decide

theorem empty_msg_ne_invalid (m x y z : Str) :
    "invalid metric: \"".data ++ m ++ x ≠
      "can not convert value to int: \"".data ++ m ++ y ++ z := by
  intro h
  have h1 := congrArg List.head? h
  revert h1
  show some 'i' = some 'c' → False
  decide

/-- C17: the empty-split guard of `process` is dead code.  For every string `m`
(the empty string too) splitting `m` on `|` yields at least one segment, so
`process(m)` never returns the `invalid metric: "<m>"` error; it returns nil,
the `invalid name/value pair` error or the `can not convert value to int`
error, and no error of the class of the guard. -/
theorem C17_empty_guard_dead (Quote : Str → Str) (s : State) (m : Str) :
    1 ≤ (Split m '|').length ∧
      (process Quote s m).err ≠ some ("invalid metric: \"".data ++ m ++ "\"".data) ∧
      ((process Quote s m).err = none ∨
        (process Quote s m).err =
          some ("invalid name/value pair: \"".data ++ m ++ "\"".data) ∨
        ∃ e : NumError, (process Quote s m).err =
          some ("can not convert value to int: \"".data ++ m ++ "\", ".data
            ++ e.Error Quote)) ∧
      ((process Quote s m).err.map errClass = none ∨
        (process Quote s m).err.map errClass = some ErrClass.MissingValue ∨
        (process Quote s m).err.map errClass = some ErrClass.InvalidValue) := by
  refine ⟨?_, ?_, ?_, ?_⟩
  · cases h : Split m '|' with
    | nil => exact absurd h (Split_ne_nil m '|')
    | cons p ps => simp
  · by_cases hc : ':' ∈ pairText m
    · cases hp : ParseInt (valueText m) with
      | error e =>
        rw [process_invalid Quote s m e hc hp]
        intro h
        exact empty_msg_ne_invalid m _ _ _ (Option.some.inj h).symm
      | ok v =>
        rw [process_ok Quote s m v hc hp]
        intro h
        cases h
    · rw [process_missing Quote s m hc]
      intro h
      exact empty_msg_ne_missing m _ _ (Option.some.inj h).symm
  · by_cases hc : ':' ∈ pairText m
    · cases hp : ParseInt (valueText m) with
      | error e =>
        rw [process_invalid Quote s m e hc hp]
        exact Or.inr (Or.inr ⟨e, rfl⟩)
      | ok v =>
        rw [process_ok Quote s m v hc hp]
        exact Or.inl rfl
    · rw [process_missing Quote s m hc]
      exact Or.inr (Or.inl rfl)
  · rw [process_errClass]
    by_cases hc : ':' ∈ pairText m
    · rw [if_pos hc]
      by_cases hl : isInt64Literal (valueText m) = true
      · rw [if_pos hl]; exact Or.inl rfl
      · rw [if_neg hl]; exact Or.inr (Or.inr rfl)
    · rw [if_neg hc]; exact Or.inr (Or.inl rfl)

/-- C18: datagram boundaries do not affect the totals.  Calling `handle(t1)`
and then `handle(t2)` leaves the same state as the single call
`handle(t1 ++ "\n" ++ t2)`; and the single call returns nil when both separate
calls do, and otherwise the error whose message is the newline-join of the
non-nil error messages of the two separate calls, in that order. -/
theorem C18_datagram_boundaries (Quote : Str → Str) (s : State) (t1 t2 : Str) :
    (handle Quote s (t1 ++ "\n".data ++ t2)).state.Metrics =
        (handle Quote (handle Quote s t1).state t2).state.Metrics ∧
      (handle Quote s (t1 ++ "\n".data ++ t2)).state =
        (handle Quote (handle Quote s t1).state t2).state ∧
      (handle Quote s (t1 ++ "\n".data ++ t2)).err =
        (if [(handle Quote s t1).err,
              (handle Quote (handle Quote s t1).state t2).err].filterMap id = [] then none
         else some (Join ([(handle Quote s t1).err,
              (handle Quote (handle Quote s t1).state t2).err].filterMap id) "\n".data)) := by
  have e : t1 ++ "\n".data ++ t2 = t1 ++ '\n' :: t2 := by
    rw [List.append_assoc]; rfl
  have hsp : Split (t1 ++ "\n".data ++ t2) '\n' = Split t1 '\n' ++ Split t2 '\n' := by
    rw [e, Split_append_sep]
  have hs : (handle Quote s (t1 ++ "\n".data ++ t2)).state =
      (handle Quote (handle Quote s t1).state t2).state := by
    rw [handle_state, handle_state, handle_state, hsp, applyLines_append]
  refine ⟨by rw [hs], hs, ?_⟩
  have hl : lineError Quote (handle Quote s t1).state = lineError Quote s := by
    funext m; exact lineError_state Quote _ _ m
  rw [handle_err, handle_err, handle_err, hsp, List.filterMap_append, hl]
  by_cases h1 : (Split t1 '\n').filterMap (lineError Quote s) = []
  · by_cases h2 : (Split t2 '\n').filterMap (lineError Quote s) = []
    · simp [h1, h2]
    · simp [h1, h2, Join]
  · by_cases h2 : (Split t2 '\n').filterMap (lineError Quote s) = []
    · simp [h1, h2, Join]
    · rw [if_neg h1, if_neg h2, if_neg (by simp [h1]), Join_append _ _ _ h1 h2]
      simp [Join]

theorem Split_length (t : Str) (sep : Char) : (Split t sep).length = t.count sep + 1 := by
  induction t with
  | nil => rfl
  | cons c cs ih =>
    by_cases hc : c = sep
    · subst hc
      simp [Split, ih]
    · have hne := Split_ne_nil cs sep
      cases hsp : Split cs sep with
      | nil => exact absurd hsp hne
      | cons p ps =>
        rw [hsp] at ih
        simp only [Split, if_neg hc, hsp, List.length_cons] at ih ⊢
        rw [List.count_cons_of_ne (fun e => hc e.symm)]
        exact ih

theorem accepted_add_rejected (Quote : Str → Str) (s : State) (ls : List Str) :
    (ls.filter (fun m => (process Quote s m).err.isNone)).length +
      (ls.filter (fun m => (process Quote s m).err.isSome)).length = ls.length := by
  induction ls with
  | nil => rfl
  | cons m ls ih =>
    cases h : (process Quote s m).err with
    | none => simp [List.filter_cons, h]; omega
    | some e => simp [List.filter_cons, h]; omega

theorem filterMap_lineError_length (Quote : Str → Str) (s : State) (ls : List Str) :
    (ls.filterMap (lineError Quote s)).length =
      (ls.filter (fun m => (process Quote s m).err.isSome)).length := by
  induction ls with
  | nil => rfl
  | cons m ls ih =>
    cases h : (process Quote s m).err with
    | none => simp [List.filter_cons, lineError, h, ih]
    | some e => simp [List.filter_cons, lineError, h, ih]

/-- C19: an empty datagram is never a silent success.  For every state,
`handle("")` ranges over exactly one line, the empty one, returns the non-nil
error `error processing metric: "", invalid name/value pair: ""` and leaves
the state unchanged.  In general the slice of lines `handle` ranges over has
(number of newline characters of the text) + 1 elements, the `errors` slice
ends up with one message per rejected line, and accepted plus rejected lines
total that count. -/
theorem C19_empty_datagram_and_line_count (Quote : Str → Str) (s : State) (t : Str) :
    (Split [] '\n' = [[]] ∧
      (handle Quote s []).err =
        some "error processing metric: \"\", invalid name/value pair: \"\"".data ∧
      (handle Quote s []).state = s ∧
      (handle Quote s []).state.Metrics = s.Metrics) ∧
    ((Split t '\n').length = t.count '\n' + 1 ∧
      (handleLoop Quote (Split t '\n') s [] []).2.1.length =
        ((Split t '\n').filter (fun m => (process Quote s m).err.isSome)).length ∧
      ((Split t '\n').filter (fun m => (process Quote s m).err.isNone)).length +
        ((Split t '\n').filter (fun m => (process Quote s m).err.isSome)).length =
          t.count '\n' + 1) := by
  have hsp : Split [] '\n' = [[]] := rfl
  have hst : (handle Quote s []).state = s := by
    rw [handle_state, hsp, applyLines_cons, process_state_of_rejected Quote s [] parseLine_empty]
    rfl
  refine ⟨⟨hsp, ?_, hst, by rw [hst]⟩, Split_length t '\n', ?_, ?_⟩
  · rw [handle_err, hsp]
    simp [lineError_empty, Join]
  · rw [handleLoop_errors Quote (Split t '\n') s s [] [], List.nil_append,
      filterMap_lineError_length]
  · rw [accepted_add_rejected, Split_length]

end Statsdev
